import Mathlib

/-!
NNTP client (`tools/sources/nntp.h`): embedding and properties

The class `machinelearning::tools::sources::nntp` is embedded as functions over an explicit
socket state.  Byte strings are `List Char`.  Every member function takes the socket and gives
back its outcome (a value, or the exception that left the function) together with the socket
as the call left it, so the commands written before an exception stay observable.

Conventions of the embedding:

* `boost::asio::write` appends one entry to `Socket.output` per call and throws
  `boost::system::system_error` when the socket is closed or the peer is gone.
* The server's bytes reach the socket in deliveries (`Socket.input`, one entry per delivery,
  an entry being what one `read_some` returns). `boost::asio::read_until(m_socket, buf, delim)`
  on a fresh buffer takes whole deliveries until the buffer holds `delim`; the buffer then
  holds everything taken, the bytes after the delimiter included, and since the buffers of
  `send` and `getResponseData` are local those bytes are gone from the session. It throws
  `boost::system::system_error` when the deliveries end before `delim` is seen.
* `boost::lexical_cast<unsigned int>` accepts an optional sign followed by one or more decimal
  digits and nothing else; a value that does not fit 32 bits is rejected, a leading minus
  negates modulo `2^32`.
* `exception::parameter(_(msg))` is kept as `Fault.parameter msg`, with `msg` the message
  identifier handed to the translation hook `_`.
* The addresses the resolver returns are the argument of the constructor, each with the
  outcome of a connect to it and the bytes its host delivers.
* The destructor is embedded as its body; `m_socket.close()` clears `Socket.is_open`.
* The overloads of `getArticle` and `existArticle` carry distinct names: `getArticle` (current
  article), `getArticleById` (message id), `getArticleIn` (group and article id),
  `getArticlesIn` (group and list of article ids), `getArticles` (list of message ids),
  `existArticle` (message id), `existArticleIn` (group and article id).
-/

namespace NNTP

/-! ## Outcomes -/

/-- What can leave a member function other than its return value. -/
inductive Fault where
  /-- The exception `exception::parameter`, with its message identifier. -/
  | parameter (msg : String)
  /-- The exception `boost::system::system_error` raised by the transport. -/
  | system_error
  /-- An iterator range outside its container was handed to `erase`: behaviour undefined. -/
  | undefined
  deriving DecidableEq, Repr

deriving instance DecidableEq for Except

/-- Selector `nntp::content`. -/
inductive content where
  | full
  | body
  | header
  deriving DecidableEq, Repr

/-! ## Transport -/

/-- State of `m_socket` together with both directions of the wire. -/
structure Socket where
  /-- The descriptor is open (`m_socket.close()` clears it). -/
  is_open : Bool
  /-- The peer still accepts data. -/
  alive : Bool
  /-- Bytes the server sends that are not yet read: one entry per delivery, oldest first. -/
  input : List (List Char)
  /-- Payload of every `boost::asio::write` so far, oldest first. -/
  output : List (List Char)
  deriving DecidableEq, Repr

/-- Line terminator of the protocol. -/
def CRLF : List Char := ['\r', '\n']

/-- Delimiter closing a multi-line response, the five bytes CR LF dot CR LF. -/
def DOTCRLF : List Char := ['\r', '\n', '.', '\r', '\n']

/-- Call `boost::asio::write(m_socket, request)`. -/
def write (bytes : List Char) (s : Socket) : Except Fault Unit × Socket :=
  if s.is_open && s.alive then
    (.ok (), { s with output := s.output ++ [bytes] })
  else
    (.error .system_error, s)

/-- Cut `l` after the first occurrence of `d`: the bytes up to and including `d`, and the rest.
`none` when `d` does not occur. -/
def splitAfter (d : List Char) : List Char → Option (List Char × List Char)
  | [] => none
  | c :: cs =>
    if d.isPrefixOf (c :: cs) then
      some (d, (c :: cs).drop d.length)
    else
      match splitAfter d cs with
      | none => none
      | some (pre, rest) => some (c :: pre, rest)

/-- The loop inside `boost::asio::read_until`: while the buffer `buf` does not hold `delim` the
next delivery is appended to it. Gives the buffer and the deliveries left, `none` when the
deliveries end first. -/
def readLoop (delim : List Char) : List Char → List (List Char) → Option (List Char × List (List Char))
  | buf, [] => if (splitAfter delim buf).isSome then some (buf, []) else none
  | buf, c :: cs =>
    if (splitAfter delim buf).isSome then some (buf, c :: cs)
    else readLoop delim (buf ++ c) cs

/-- Call `boost::asio::read_until(m_socket, response, delim)` on a fresh buffer, giving the
content of the buffer afterwards. -/
def read_until (delim : List Char) (s : Socket) : Except Fault (List Char) × Socket :=
  if s.is_open then
    match readLoop delim [] s.input with
    | some (buf, rest) => (.ok buf, { s with input := rest })
    | none => (.error .system_error, { s with input := [] })
  else
    (.error .system_error, s)

/-- The delimiter `d` occurs in `p ++ d` at offset `p.length` and at no earlier offset. -/
def FirstAt (d p : List Char) : Prop :=
  ∀ k, k < p.length → d.isPrefixOf ((p ++ d).drop k) = false

instance (d p : List Char) : Decidable (FirstAt d p) := by
  unfold FirstAt; infer_instance

/-- The deliveries `input` begin with the bytes `p` closed by the delimiter `d`, cut into
non-empty deliveries in any way, the last of which ends with `d`; the deliveries `rest` follow.
The delimiter does not occur before the end of `p`. -/
def Arrives (d : List Char) (input : List (List Char)) (p : List Char)
    (rest : List (List Char)) : Prop :=
  FirstAt d p ∧
    ∃ pre : List (List Char), (∀ c ∈ pre, c ≠ []) ∧ pre.flatten = p ++ d ∧ input = pre ++ rest

instance (d : List Char) (input : List (List Char)) (p : List Char) (rest : List (List Char)) :
    Decidable (Arrives d input p rest) :=
  decidable_of_iff
    (FirstAt d p ∧ ∃ k, k < input.length + 1 ∧ (∀ c ∈ input.take k, c ≠ []) ∧
      (input.take k).flatten = p ++ d ∧ input.drop k = rest)
    (by
      unfold Arrives
      constructor
      · rintro ⟨hf, k, _, hne, hj, hr⟩
        exact ⟨hf, input.take k, hne, hj, by rw [← hr, List.take_append_drop]⟩
      · rintro ⟨hf, pre, hne, hj, hi⟩
        refine ⟨hf, pre.length, ?_, ?_, ?_, ?_⟩
        · rw [hi, List.length_append]; omega
        · rw [hi, List.take_left]; exact hne
        · rw [hi, List.take_left]; exact hj
        · rw [hi, List.drop_left])

/-- The deliveries `input` begin with the bytes `p` closed by the delimiter `d`, cut into
deliveries in any way; the delivery that completes the delimiter carries the bytes `extra`
after it (none, when it ends with the delimiter); the deliveries `rest` follow that one. The
delimiter does not occur before the end of `p`. -/
def ArrivesWith (d : List Char) (input : List (List Char)) (p extra : List Char)
    (rest : List (List Char)) : Prop :=
  FirstAt d p ∧
    ∃ (pre : List (List Char)) (last : List Char),
      pre.flatten.length < (p ++ d).length ∧ pre.flatten ++ last = p ++ d ++ extra ∧
      input = pre ++ last :: rest

/-- The deliveries `input` begin with the status line `l` closed by its CR LF, in one delivery
or several; whatever the delivery that completes the line carries after it is taken with the
line; the deliveries `rest` follow that one. -/
def StatusLine (input : List (List Char)) (l : List Char) (rest : List (List Char)) : Prop :=
  ∃ extra, ArrivesWith CRLF input l extra rest

instance (input : List (List Char)) (l : List Char) (rest : List (List Char)) :
    Decidable (StatusLine input l rest) :=
  decidable_of_iff
    (FirstAt CRLF l ∧ ∃ k, k < input.length ∧
      (input.take k).flatten.length < (l ++ CRLF).length ∧
      ((input.take k).flatten ++ (input.drop k).headD []).take (l ++ CRLF).length = l ++ CRLF ∧
      (input.drop k).tail = rest)
    (by
      unfold StatusLine ArrivesWith
      constructor
      · rintro ⟨hf, k, hk, hlen, htake, hr⟩
        refine ⟨((input.take k).flatten ++ (input.drop k).headD []).drop (l ++ CRLF).length,
          hf, input.take k, (input.drop k).headD [], hlen, ?_, ?_⟩
        · conv_lhs => rw [← List.take_append_drop (l ++ CRLF).length
            ((input.take k).flatten ++ (input.drop k).headD [])]
          rw [htake]
        · have hd : input.drop k = (input.drop k).headD [] :: rest := by
            cases hx : input.drop k with
            | nil =>
              have := congrArg List.length hx
              simp only [List.length_drop, List.length_nil] at this
              omega
            | cons a t =>
              rw [hx] at hr
              simp only [List.tail_cons] at hr
              simp [hr]
          rw [← hd, List.take_append_drop]
      · rintro ⟨extra, hf, pre, last, hlen, hj, hi⟩
        refine ⟨hf, pre.length, ?_, ?_, ?_, ?_⟩
        · rw [hi, List.length_append, List.length_cons]; omega
        · rw [hi, List.take_left]; exact hlen
        · rw [hi, List.take_left, List.drop_left, List.headD_cons, hj, List.take_left]
        · rw [hi, List.drop_left, List.tail_cons])

/-- The connection is usable and the next bytes the server delivers are the status line `l`,
closed by its CR LF, in one delivery or several; the deliveries `rest` follow the one that
completes the line. -/
def Answers (s : Socket) (l : List Char) (rest : List (List Char)) : Prop :=
  s.is_open = true ∧ s.alive = true ∧ StatusLine s.input l rest

instance (s : Socket) (l : List Char) (rest : List (List Char)) : Decidable (Answers s l rest) := by
  unfold Answers; infer_instance

/-! ## Number parsing -/

/-- Value of a decimal digit character. -/
def digitVal (c : Char) : Option Nat :=
  if '0' ≤ c ∧ c ≤ '9' then some (c.toNat - '0'.toNat) else none

/-- Value of a run of decimal digits read left to right, continuing from `acc`; `none` when a
character is not a digit. -/
def digitsVal : Nat → List Char → Option Nat
  | acc, [] => some acc
  | acc, c :: cs =>
    match digitVal c with
    | none => none
    | some d => digitsVal (acc * 10 + d) cs

/-- Conversion `boost::lexical_cast<unsigned int>(text)`; `none` stands for `bad_lexical_cast`.
The text is an optional sign and then at least one digit, nothing before or after. -/
def lexical_cast_uint (text : List Char) : Option Nat :=
  let go (neg : Bool) (ds : List Char) : Option Nat :=
    match ds with
    | [] => none
    | _ :: _ =>
      match digitsVal 0 ds with
      | none => none
      | some v =>
        if v < 2 ^ 32 then some (if neg then (2 ^ 32 - v) % 2 ^ 32 else v) else none
  match text with
  | [] => none
  | '-' :: ds => go true ds
  | '+' :: ds => go false ds
  | ds => go false ds

/-! ## `nntp` member functions -/

/-- Member `nntp::throwNNTPError`: the switch over the status code. -/
def throwNNTPError (p_status : Nat) : Except Fault Unit :=
  match p_status with
  | 0 => .error (.parameter "error while reading socket data")
  | 411 => .error (.parameter "no such group")
  | 412 => .error (.parameter "no newsgroup has been selected")
  | 420 => .error (.parameter "no article has been selected")
  | 421 => .error (.parameter "no next article found")
  | 422 => .error (.parameter "no previous article found")
  | 423 => .error (.parameter "no such article number in this group")
  | 430 => .error (.parameter "no such article found")
  | 435 => .error (.parameter "article not wanted - do not send")
  | 436 => .error (.parameter "transfer failed - try again later")
  | 437 => .error (.parameter "article rejected - do not try again")
  | 440 => .error (.parameter "posting not allowed")
  | 441 => .error (.parameter "posting failed")
  | 500 => .error (.parameter "command not recognized")
  | 501 => .error (.parameter "command syntax error")
  | 502 => .error (.parameter "access restriction or permission denied")
  | 503 => .error (.parameter "program fault")
  | _ => .ok ()

/-- Status code that `nntp::send` separates from the returned line: the cast of its first three
characters, and 0 when the cast throws. -/
def statusOf (l_returnline : List Char) : Nat :=
  (lexical_cast_uint (l_returnline.take 3)).getD 0

/-- Member `nntp::send`. -/
def send (p_cmd : List Char) (p_throw : Bool) (s : Socket) : Except Fault Nat × Socket :=
  match write (p_cmd ++ CRLF) s with
  | (.error e, s1) => (.error e, s1)
  | (.ok (), s1) =>
    match read_until CRLF s1 with
    | (.error e, s2) => (.error e, s2)
    | (.ok l_returnline, s2) =>
      let l_status := statusOf l_returnline
      if p_throw then
        match throwNNTPError l_status with
        | .error e => (.error e, s2)
        | .ok () => (.ok l_status, s2)
      else
        (.ok l_status, s2)

/-- Member `nntp::getResponseData`. -/
def getResponseData (s : Socket) : Except Fault (List Char) × Socket :=
  match read_until DOTCRLF s with
  | (.error e, s1) => (.error e, s1)
  | (.ok l_data, s1) =>
    if l_data.length < 5 then (.error .undefined, s1)
    else (.ok (l_data.take (l_data.length - 5)), s1)

/-- Member `nntp::setGroup`. -/
def setGroup (p_group : List Char) (s : Socket) : Except Fault Unit × Socket :=
  match send ("group ".toList ++ p_group) true s with
  | (.error e, s1) => (.error e, s1)
  | (.ok _, s1) => (.ok (), s1)

/-- Member `nntp::nextArticle`. -/
def nextArticle (s : Socket) : Except Fault Bool × Socket :=
  match send "next".toList false s with
  | (.error e, s1) => (.error e, s1)
  | (.ok l_stat, s1) =>
    if l_stat = 421 then
      (.ok false, s1)
    else
      match throwNNTPError l_stat with
      | .error e => (.error e, s1)
      | .ok () => (.ok true, s1)

/-- Member `nntp::existArticle(p_messageid)`. -/
def existArticle (p_messageid : List Char) (s : Socket) : Except Fault Bool × Socket :=
  match send ("stat ".toList ++ p_messageid) false s with
  | (.error e, s1) => (.error e, s1)
  | (.ok l_stat, s1) =>
    if l_stat = 223 then (.ok true, s1)
    else if l_stat = 430 then (.ok false, s1)
    else
      match throwNNTPError l_stat with
      | .error e => (.error e, s1)
      | .ok () => (.ok false, s1)

/-- Member `nntp::existArticle(p_group, p_articleid)`. -/
def existArticleIn (p_group p_articleid : List Char) (s : Socket) : Except Fault Bool × Socket :=
  match send ("group ".toList ++ p_group) true s with
  | (.error e, s1) => (.error e, s1)
  | (.ok _, s1) =>
    match send ("stat ".toList ++ p_articleid) false s1 with
    | (.error e, s2) => (.error e, s2)
    | (.ok l_stat, s2) =>
      if l_stat = 223 then (.ok true, s2)
      else if l_stat = 423 then (.ok false, s2)
      else
        match throwNNTPError l_stat with
        | .error e => (.error e, s2)
        | .ok () => (.ok false, s2)

/-- The switch of the list overloads of `nntp::getArticle` that picks the command word. -/
def l_cmd (p_content : content) : List Char :=
  match p_content with
  | .full => "article".toList
  | .body => "body".toList
  | .header => "head".toList

/-- The loop of `nntp::getArticle(p_group, p_articleid, p_content)` over the article ids, with
`l_data` the vector filled so far. -/
def getArticlesLoop (cmd : List Char) :
    List (List Char) → List (List Char) → Socket → Except Fault (List (List Char)) × Socket
  | [], l_data, s => (.ok l_data, s)
  | id :: ids, l_data, s =>
    match send (cmd ++ " ".toList ++ id) true s with
    | (.error e, s1) => (.error e, s1)
    | (.ok _, s1) =>
      match getResponseData s1 with
      | (.error e, s2) => (.error e, s2)
      | (.ok payload, s2) => getArticlesLoop cmd ids (l_data ++ [payload]) s2

/-- Member `nntp::getArticle(p_group, p_articleid, p_content)` for a vector of article ids. -/
def getArticlesIn (p_group : List Char) (p_articleid : List (List Char)) (p_content : content)
    (s : Socket) : Except Fault (List (List Char)) × Socket :=
  match send ("group ".toList ++ p_group) true s with
  | (.error e, s1) => (.error e, s1)
  | (.ok _, s1) => getArticlesLoop (l_cmd p_content) p_articleid [] s1

/-- Call `boost::split(result, input, boost::is_any_of(sep))` for a separator set of the one
character `sep`: the segments between the separators, empty segments kept. -/
def split (sep : Char) : List Char → List (List Char)
  | [] => [[]]
  | c :: cs =>
    if c = sep then [] :: split sep cs
    else
      match split sep cs with
      | [] => [[c]]
      | seg :: segs => (c :: seg) :: segs

/-- The two `erase` calls shared by `getGroupList` and `getArticleIDs`: the first element goes,
then the last two. A range that leaves the vector is undefined behaviour. -/
def eraseEnds (l_list : List (List Char)) : Except Fault (List (List Char)) :=
  match l_list with
  | [] => .error .undefined
  | _ :: l_rest =>
    if l_rest.length < 2 then .error .undefined
    else .ok (l_rest.take (l_rest.length - 2))

/-- Comparison `operator<` of `std::string`. -/
def strLess : List Char → List Char → Bool
  | _, [] => false
  | [], _ :: _ => true
  | a :: as, b :: bs =>
    if a < b then true else if b < a then false else strLess as bs

/-- Content of a `std::map<std::string, std::size_t>`: its entries in iteration order. -/
abbrev GroupMap := List (List Char × Nat)

/-- Assignment `m[k] = v` on a `std::map`. -/
def mapSet : GroupMap → List Char → Nat → GroupMap
  | [], k, v => [(k, v)]
  | (k1, v1) :: m, k, v =>
    if k = k1 then (k, v) :: m
    else if strLess k k1 then (k, v) :: (k1, v1) :: m
    else (k1, v1) :: mapSet m k v

/-- The loop of `nntp::getGroupList` over the kept lines, with `l_groups` the map so far. -/
def groupsLoop : List (List Char) → GroupMap → GroupMap
  | [], l_groups => l_groups
  | line :: l_list, l_groups =>
    match split ' ' line with
    | name :: count :: _ =>
      groupsLoop l_list (mapSet l_groups name ((lexical_cast_uint count).getD 0))
    | _ => groupsLoop l_list l_groups

/-- Member `nntp::getGroupList`. -/
def getGroupList (s : Socket) : Except Fault GroupMap × Socket :=
  match send "list active".toList true s with
  | (.error e, s1) => (.error e, s1)
  | (.ok _, s1) =>
    match getResponseData s1 with
    | (.error e, s2) => (.error e, s2)
    | (.ok l_data, s2) =>
      match eraseEnds (split '\n' l_data) with
      | .error e => (.error e, s2)
      | .ok l_list => (.ok (groupsLoop l_list []), s2)

/-- Replies to a run of fetches, each in two deliveries: the status line with its CR LF, then
the body with the closing delimiter. An entry is (article id, status line, body). -/
def fetchReplies : List (List Char × List Char × List Char) → List (List Char)
  | [] => []
  | x :: xs => (x.2.1 ++ CRLF) :: (x.2.2 ++ DOTCRLF) :: fetchReplies xs

/-- A 2xx status code. -/
def isSuccess (c : Nat) : Prop := 200 ≤ c ∧ c < 300

instance (c : Nat) : Decidable (isSuccess c) := by
  unfold isSuccess; infer_instance

/-- The lines `ls` on the wire, each closed by CR LF. -/
def crlfLines : List (List Char) → List Char
  | [] => []
  | l :: ls => l ++ CRLF ++ crlfLines ls

/-- The entries of a map come in strictly increasing key order. -/
def KeySorted (m : GroupMap) : Prop :=
  m.Pairwise (fun a b => strLess a.1 b.1 = true)

/-- A line of the group listing: group name, count token, and what follows the count. -/
structure GroupLine where
  /-- Text before the first blank. -/
  name : List Char
  /-- Text between the first and the second blank. -/
  count : List Char
  /-- Text after the second blank. -/
  more : List Char
  deriving DecidableEq, Repr

/-- Text of a listing line: name, blank, count, blank, remainder. -/
def GroupLine.text (e : GroupLine) : List Char :=
  e.name ++ ' ' :: (e.count ++ ' ' :: e.more)

/-- Number that `getGroupList` stores for a listing line: the cast of the count token, and 0
when the cast throws. -/
def GroupLine.value (e : GroupLine) : Nat :=
  (lexical_cast_uint e.count).getD 0

/-- Sample: three fetches by article id with bodies of different lengths. -/
def sampleFetches : List (List Char × List Char × List Char) :=
  [("7".toList, "222 7 <a@example> body follows".toList, "short".toList),
   ("8".toList, "222 8 <b@example> body follows".toList, "two lines,\r\n..the second".toList),
   ("9".toList, "222 9 <c@example> body follows".toList, "x".toList)]

/-- Sample: three listing lines, the first name repeated by the third, the second count not a
number. -/
def sampleLines : List GroupLine :=
  [⟨"misc.test".toList, "5".toList, "1 y".toList⟩,
   ⟨"alt.test".toList, "x9".toList, "1 y".toList⟩,
   ⟨"misc.test".toList, "8".toList, "3 y".toList⟩]

/-- The status codes for which `throwNNTPError` has a case. -/
def errorCodes : List Nat :=
  [0, 411, 412, 420, 421, 422, 423, 430, 435, 436, 437, 440, 441, 500, 501, 502, 503]

/-! ## Remaining member functions -/

/-- Member `nntp::getArticle(p_content)`: the article the session currently points at. -/
def getArticle (p_content : content) (s : Socket) : Except Fault (List Char) × Socket :=
  match (match p_content with
    | .full => send "article".toList true s
    | .body => send "body".toList true s
    | .header => send "head".toList true s) with
  | (.error e, s1) => (.error e, s1)
  | (.ok _, s1) => getResponseData s1

/-- Member `nntp::getArticle(p_messageid, p_content)`. -/
def getArticleById (p_messageid : List Char) (p_content : content) (s : Socket) :
    Except Fault (List Char) × Socket :=
  match (match p_content with
    | .full => send ("article ".toList ++ p_messageid) true s
    | .body => send ("body ".toList ++ p_messageid) true s
    | .header => send ("head ".toList ++ p_messageid) true s) with
  | (.error e, s1) => (.error e, s1)
  | (.ok _, s1) => getResponseData s1

/-- Member `nntp::getArticle(p_group, p_articleid, p_content)` for one article id. -/
def getArticleIn (p_group p_articleid : List Char) (p_content : content) (s : Socket) :
    Except Fault (List Char) × Socket :=
  match send ("group ".toList ++ p_group) true s with
  | (.error e, s1) => (.error e, s1)
  | (.ok _, s1) =>
    match (match p_content with
      | .full => send ("article ".toList ++ p_articleid) true s1
      | .body => send ("body ".toList ++ p_articleid) true s1
      | .header => send ("head ".toList ++ p_articleid) true s1) with
    | (.error e, s2) => (.error e, s2)
    | (.ok _, s2) => getResponseData s2

/-- The loop of `nntp::getArticle(p_messageid, p_content)` over a vector of message ids, with
`l_data` the vector filled so far. -/
def getArticlesLoopById (p_content : content) :
    List (List Char) → List (List Char) → Socket → Except Fault (List (List Char)) × Socket
  | [], l_data, s => (.ok l_data, s)
  | id :: ids, l_data, s =>
    match getArticleById id p_content s with
    | (.error e, s1) => (.error e, s1)
    | (.ok article, s1) => getArticlesLoopById p_content ids (l_data ++ [article]) s1

/-- Member `nntp::getArticle(p_messageid, p_content)` for a vector of message ids. -/
def getArticles (p_messageid : List (List Char)) (p_content : content) (s : Socket) :
    Except Fault (List (List Char)) × Socket :=
  getArticlesLoopById p_content p_messageid [] s

/-- Member `nntp::getArticleIDs`. -/
def getArticleIDs (p_group : List Char) (s : Socket) :
    Except Fault (List (List Char)) × Socket :=
  match send ("listgroup ".toList ++ p_group) true s with
  | (.error e, s1) => (.error e, s1)
  | (.ok _, s1) =>
    match getResponseData s1 with
    | (.error e, s2) => (.error e, s2)
    | (.ok l_data, s2) =>
      match eraseEnds (split '\n' l_data) with
      | .error e => (.error e, s2)
      | .ok l_id => (.ok l_id, s2)

/-- One address the resolver returned for the server, with what a connect to it does. -/
structure Endpoint where
  /-- Whether `m_socket.connect` to this address succeeds. -/
  connects : Bool
  /-- Deliveries of the host at this address once connected. -/
  input : List (List Char)
  deriving DecidableEq, Repr

/-- Socket after `m_socket.close()` followed by `m_socket.connect(ep, l_error)`. -/
def connectTo (ep : Endpoint) : Socket :=
  { is_open := true, alive := ep.connects, input := if ep.connects then ep.input else [],
    output := [] }

/-- State of the connect loop of the constructor. -/
structure ConnectState where
  /-- The error code `l_error` is set. -/
  l_error : Bool
  /-- State of `m_socket`. -/
  socket : Socket
  /-- Addresses a connect was attempted to, oldest first. -/
  attempted : List Endpoint
  deriving DecidableEq, Repr

/-- The loop `while (l_error && l_endpoint != l_endpointend)` of the constructor over the
addresses not yet tried. -/
def connectLoop : List Endpoint → ConnectState → ConnectState
  | [], st => st
  | ep :: eps, st =>
    if st.l_error then
      connectLoop eps
        { l_error := !ep.connects, socket := connectTo ep, attempted := st.attempted ++ [ep] }
    else st

/-- Constructor `nntp::nntp`, from the addresses the resolver returned for the server: its
outcome (the connected socket after the welcome line was read) and the addresses tried. -/
def nntp (l_endpoints : List Endpoint) : Except Fault Socket × List Endpoint :=
  let st := connectLoop l_endpoints
    { l_error := true, socket := { is_open := false, alive := false, input := [], output := [] },
      attempted := [] }
  if st.l_error then
    (.error (.parameter "cannot connect to news server"), st.attempted)
  else
    match read_until CRLF st.socket with
    | (.error e, _) => (.error e, st.attempted)
    | (.ok _, s1) => (.ok s1, st.attempted)

/-- Body of the destructor `nntp::~nntp`. -/
def nntp_destructor (s : Socket) : Except Fault Unit × Socket :=
  match send "quit".toList true s with
  | (.error e, s1) => (.error e, s1)
  | (.ok _, s1) => (.ok (), { s1 with is_open := false })

/-- Sample: a session in which the server confirms a group, answers the first two sample
fetches and then sends the status line `l` followed by a delivery that stays unread. -/
def sampleSession (l : List Char) : Socket :=
  { is_open := true
    alive := true
    input := ("211 3 7 9 misc.test".toList ++ CRLF) ::
      (fetchReplies (sampleFetches.take 2) ++ [l ++ CRLF, "unread".toList])
    output := [] }

/-- Sample: the same session without the group exchange, for fetches by message id. -/
def sampleSessionById (l : List Char) : Socket :=
  { is_open := true
    alive := true
    input := fetchReplies (sampleFetches.take 2) ++ [l ++ CRLF, "unread".toList]
    output := [] }

/-! ## Properties -/

theorem throwNNTPError_ok_iff (c : Nat) : throwNNTPError c = .ok () ↔ c ∉ errorCodes := by
  unfold throwNNTPError errorCodes
  split <;> simp_all

theorem throwNNTPError_error_iff (c : Nat) : (∃ e, throwNNTPError c = .error e) ↔ c ∈ errorCodes := by
  unfold throwNNTPError errorCodes
  split <;> simp_all

theorem isPrefixOf_append_right (d x rest : List Char) (h : d.length ≤ x.length) :
    d.isPrefixOf (x ++ rest) = d.isPrefixOf x := by
  induction d generalizing x with
  | nil => simp
  | cons a d ih =>
    cases x with
    | nil => simp at h
    | cons b x =>
      simp only [List.length_cons, Nat.add_le_add_iff_right] at h
      simp [List.isPrefixOf, ih x h]

theorem isPrefixOf_self_append (d rest : List Char) : d.isPrefixOf (d ++ rest) = true := by
  induction d with
  | nil => simp
  | cons a d ih => simp [List.isPrefixOf, ih]

theorem FirstAt.tail {d : List Char} {a : Char} {p : List Char} (h : FirstAt d (a :: p)) :
    FirstAt d p := by
  intro k hk
  have := h (k + 1) (by simpa using hk)
  simpa using this

/-- Reading up to a delimiter that first occurs right after `p` consumes exactly `p` and the
delimiter. -/
theorem splitAfter_firstAt (d p rest : List Char) (hd : d ≠ []) (h : FirstAt d p) :
    splitAfter d (p ++ d ++ rest) = some (p ++ d, rest) := by
  induction p with
  | nil =>
    cases d with
    | nil => exact absurd rfl hd
    | cons c d =>
      have := isPrefixOf_self_append (c :: d) rest
      simp only [List.nil_append, List.cons_append] at this ⊢
      simp [splitAfter, this]
  | cons a p ih =>
    have h0 := h 0 (by simp)
    simp only [List.drop_zero] at h0
    have h1 : d.isPrefixOf ((a :: p) ++ d ++ rest) = false := by
      rw [isPrefixOf_append_right d ((a :: p) ++ d) rest (by simp; omega), h0]
    have h2 := ih h.tail
    simp only [List.cons_append, List.append_assoc] at h1 h2 ⊢
    rw [splitAfter]
    simp only [h1, h2]
    simp

theorem CRLF_ne_nil : CRLF ≠ [] := by simp [CRLF]

theorem DOTCRLF_ne_nil : DOTCRLF ≠ [] := by simp [DOTCRLF]

theorem isPrefixOf_length_le (d x : List Char) (h : d.isPrefixOf x = true) :
    d.length ≤ x.length :=
  (List.isPrefixOf_iff_prefix.mp h).length_le

theorem isPrefixOf_append_mono (d x t : List Char) (h : d.isPrefixOf x = true) :
    d.isPrefixOf (x ++ t) = true := by
  rw [isPrefixOf_append_right d x t (isPrefixOf_length_le d x h), h]

/-- A buffer shorter than the delimiter does not hold it. -/
theorem splitAfter_short (d x : List Char) (h : x.length < d.length) : splitAfter d x = none := by
  induction x with
  | nil => rfl
  | cons c cs ih =>
    have hp : d.isPrefixOf (c :: cs) = false := by
      cases hb : d.isPrefixOf (c :: cs) with
      | false => rfl
      | true =>
        have := isPrefixOf_length_le d _ hb
        omega
    have h2 := ih (by simp at h; omega)
    rw [splitAfter]
    simp only [hp, h2]
    simp

/-- A buffer that stops short of the end of `p ++ d` does not hold the delimiter. -/
theorem splitAfter_proper_prefix (d p buf t : List Char) (h : FirstAt d p) (ht : t ≠ [])
    (he : buf ++ t = p ++ d) : splitAfter d buf = none := by
  induction buf generalizing p with
  | nil => rfl
  | cons a b ih =>
    have hlen : b.length + 1 + t.length = p.length + d.length := by
      have := congrArg List.length he
      simp only [List.length_append, List.length_cons] at this
      omega
    have htl : 0 < t.length := List.length_pos.mpr ht
    cases p with
    | nil =>
      exact splitAfter_short d _ (by simp only [List.length_cons, List.length_nil] at hlen ⊢; omega)
    | cons a2 p2 =>
      have hhead : a = a2 ∧ b ++ t = p2 ++ d := by
        simpa using he
      have hp : d.isPrefixOf (a :: b) = false := by
        cases hb : d.isPrefixOf (a :: b) with
        | false => rfl
        | true =>
          have h0 := h 0 (by simp)
          have hm := isPrefixOf_append_mono d _ t hb
          rw [he] at hm
          simp only [List.drop_zero] at h0
          rw [h0] at hm
          exact absurd hm (by simp)
      have h2 := ih p2 h.tail hhead.2
      rw [splitAfter]
      simp only [hp, h2]
      simp

/-- The read loop takes exactly the deliveries that make up `p` and the delimiter. -/
theorem readLoop_arrives (d p : List Char) (hd : d ≠ []) (hf : FirstAt d p)
    (pre rest : List (List Char)) (buf : List Char) (hne : ∀ c ∈ pre, c ≠ [])
    (hj : buf ++ pre.flatten = p ++ d) :
    readLoop d buf (pre ++ rest) = some (p ++ d, rest) := by
  induction pre generalizing buf with
  | nil =>
    have hb : buf = p ++ d := by simpa using hj
    subst hb
    have hs : (splitAfter d (p ++ d)).isSome = true := by
      have := splitAfter_firstAt d p [] hd hf
      simp only [List.append_nil] at this
      simp [this]
    cases rest with
    | nil => simp only [List.append_nil, readLoop, hs, if_true]
    | cons r rs => simp only [List.nil_append, readLoop, hs, if_true]
  | cons c cs ih =>
    have hc : c ≠ [] := hne c (by simp)
    have ht : c ++ cs.flatten ≠ [] := by simp [hc]
    have hnone := splitAfter_proper_prefix d p buf (c ++ cs.flatten) hf ht (by simpa using hj)
    have h2 := ih (buf ++ c) (fun x hx => hne x (by simp [hx])) (by simpa using hj)
    simp only [List.cons_append, readLoop, hnone, Option.isSome_none, Bool.false_eq_true,
      if_false]
    exact h2

/-- Reading up to a delimiter that arrives at the end of a delivery hands over the bytes up to
and including it and leaves the later deliveries. -/
theorem read_until_arrives (d : List Char) (s : Socket) (p : List Char)
    (rest : List (List Char)) (hd : d ≠ []) (ho : s.is_open = true)
    (h : Arrives d s.input p rest) :
    read_until d s = (.ok (p ++ d), { s with input := rest }) := by
  obtain ⟨hf, pre, hne, hj, hi⟩ := h
  have := readLoop_arrives d p hd hf pre rest [] hne (by simpa using hj)
  simp only [read_until, ho, if_true, hi, this]

/-- One delivery that holds exactly the bytes and the delimiter. -/
theorem arrives_single (d p : List Char) (rest : List (List Char)) (hd : d ≠ [])
    (hf : FirstAt d p) : Arrives d ((p ++ d) :: rest) p rest :=
  ⟨hf, [p ++ d], by simp [hd], by simp, rfl⟩

/-- A list shorter than `a` that starts a list starting with `a` is a proper initial part of
`a`. -/
theorem proper_prefix_of_lt (x y a b : List Char) (h : x ++ y = a ++ b)
    (hlen : x.length < a.length) : ∃ t, t ≠ [] ∧ x ++ t = a := by
  refine ⟨a.drop x.length, ?_, ?_⟩
  · intro hx
    have := congrArg List.length hx
    simp only [List.length_drop, List.length_nil] at this
    omega
  · have hx : x = a.take x.length := by
      have h1 : (x ++ y).take x.length = (a ++ b).take x.length := by rw [h]
      rw [List.take_left, List.take_append_of_le_length (Nat.le_of_lt hlen)] at h1
      exact h1
    have := List.take_append_drop x.length a
    rw [← hx] at this
    exact this

/-- The read loop takes the deliveries up to the one that completes the delimiter, with all
that this one carries. -/
theorem readLoop_arrivesWith (d p extra : List Char) (hd : d ≠ []) (hf : FirstAt d p)
    (pre : List (List Char)) (last : List Char) (rest : List (List Char)) (buf : List Char)
    (hlen : (buf ++ pre.flatten).length < (p ++ d).length)
    (hj : buf ++ pre.flatten ++ last = p ++ d ++ extra) :
    readLoop d buf (pre ++ last :: rest) = some (p ++ d ++ extra, rest) := by
  induction pre generalizing buf with
  | nil =>
    simp only [List.flatten_nil, List.append_nil] at hlen hj
    obtain ⟨t, ht, he⟩ := proper_prefix_of_lt buf last (p ++ d) extra hj hlen
    have hnone := splitAfter_proper_prefix d p buf t hf ht he
    have hs : (splitAfter d (p ++ d ++ extra)).isSome = true := by
      rw [splitAfter_firstAt d p extra hd hf]
      rfl
    simp only [List.nil_append, readLoop, hnone, Option.isSome_none, Bool.false_eq_true,
      if_false]
    rw [hj]
    cases rest with
    | nil => simp only [readLoop, hs, if_true]
    | cons r rs => simp only [readLoop, hs, if_true]
  | cons c cs ih =>
    have hlen0 : buf.length < (p ++ d).length := by
      simp only [List.length_append] at hlen ⊢
      omega
    have hj0 : buf ++ ((c :: cs).flatten ++ last) = p ++ d ++ extra := by
      rw [← hj, List.append_assoc]
    obtain ⟨t, ht, he⟩ := proper_prefix_of_lt buf _ (p ++ d) extra hj0 hlen0
    have hnone := splitAfter_proper_prefix d p buf t hf ht he
    have h2 := ih (buf ++ c) (by simpa using hlen) (by simpa using hj)
    simp only [List.cons_append, readLoop, hnone, Option.isSome_none, Bool.false_eq_true,
      if_false]
    exact h2

/-- Reading up to a delimiter hands over everything the deliveries up to the one completing
it carry, and leaves the later deliveries. -/
theorem read_until_arrivesWith (d : List Char) (s : Socket) (p extra : List Char)
    (rest : List (List Char)) (hd : d ≠ []) (ho : s.is_open = true)
    (h : ArrivesWith d s.input p extra rest) :
    read_until d s = (.ok (p ++ d ++ extra), { s with input := rest }) := by
  obtain ⟨hf, pre, last, hlen, hj, hi⟩ := h
  have := readLoop_arrivesWith d p extra hd hf pre last rest [] (by simpa using hlen)
    (by simpa using hj)
  simp only [read_until, ho, if_true, hi, this]

/-- Deliveries that end with the delimiter are a case of deliveries that carry it. -/
theorem Arrives.with_nil {d : List Char} {input : List (List Char)} {p : List Char}
    {rest : List (List Char)} (hd : d ≠ []) (h : Arrives d input p rest) :
    ArrivesWith d input p [] rest := by
  obtain ⟨hf, pre, hne, hj, hi⟩ := h
  have hpre : pre ≠ [] := by
    intro hx
    subst hx
    simp only [List.flatten_nil] at hj
    exact hd (List.append_eq_nil.mp hj.symm).2
  obtain ⟨ini, last, hsplit⟩ : ∃ ini last, pre = ini ++ [last] :=
    ⟨pre.dropLast, pre.getLast hpre, (List.dropLast_append_getLast hpre).symm⟩
  subst hsplit
  have hlast : last ≠ [] := hne last (by simp)
  refine ⟨hf, ini, last, ?_, ?_, ?_⟩
  · have := congrArg List.length hj
    simp only [List.flatten_append, List.flatten_cons, List.flatten_nil, List.append_nil,
      List.length_append] at this ⊢
    have hl : 0 < last.length := List.length_pos.mpr hlast
    omega
  · simpa using hj
  · simpa using hi

/-- The status line arriving in deliveries of its own. -/
theorem StatusLine.of_arrives {input : List (List Char)} {l : List Char}
    {rest : List (List Char)} (h : Arrives CRLF input l rest) : StatusLine input l rest :=
  ⟨[], h.with_nil CRLF_ne_nil⟩

/-- A usable socket whose next delivery is exactly the status line. -/
theorem answers_single (l : List Char) (rest : List (List Char)) (out : List (List Char))
    (hf : FirstAt CRLF l) : Answers ⟨true, true, (l ++ CRLF) :: rest, out⟩ l rest :=
  ⟨rfl, rfl, StatusLine.of_arrives (arrives_single CRLF l rest CRLF_ne_nil hf)⟩

/-- The status code is cast from the first three characters of the buffer, which lie within
the status line and its CR LF whatever follows them. -/
theorem statusOf_extra (l extra : List Char) :
    statusOf (l ++ CRLF ++ extra) = statusOf (l ++ CRLF) := by
  cases l with
  | nil =>
    have h1 : ∀ t : List Char, lexical_cast_uint ('\r' :: t) = none := by
      intro t
      have hv : digitVal '\r' = none := by decide
      simp [lexical_cast_uint, digitsVal, hv]
    cases extra with
    | nil => rfl
    | cons e es =>
      simp only [statusOf, CRLF, List.nil_append, List.cons_append, List.take_succ_cons, h1]
  | cons a l =>
    have hlen : 3 ≤ (a :: l ++ CRLF).length := by
      simp only [CRLF, List.length_append, List.length_cons, List.length_nil]
      omega
    simp only [statusOf, List.take_append_of_le_length hlen]

/-- One exchange of `send` against a server that answers with the status line `l`. -/
theorem send_answers (p_cmd : List Char) (p_throw : Bool) (s : Socket) (l : List Char)
    (rest : List (List Char)) (h : Answers s l rest) :
    send p_cmd p_throw s =
      ((if p_throw then
          (match throwNNTPError (statusOf (l ++ CRLF)) with
            | .error e => .error e
            | .ok () => .ok (statusOf (l ++ CRLF)))
        else .ok (statusOf (l ++ CRLF))),
       { s with input := rest, output := s.output ++ [p_cmd ++ CRLF] }) := by
  obtain ⟨ho, ha, hA⟩ := h
  obtain ⟨o, a, i, out⟩ := s
  simp only at ho ha hA
  subst ho
  subst ha
  obtain ⟨extra, hA⟩ := hA
  simp only [send, write, Bool.and_self, if_true]
  rw [read_until_arrivesWith CRLF _ l extra rest CRLF_ne_nil rfl hA]
  simp only [statusOf_extra]
  cases p_throw with
  | false => simp
  | true =>
    simp only [if_true]
    cases throwNNTPError (statusOf (l ++ CRLF)) <;> rfl

/-- What `nextArticle` yields after the status of the reply is known. -/
theorem nextArticle_answers (s : Socket) (l : List Char) (rest : List (List Char)) (h : Answers s l rest) :
    (nextArticle s).1 =
      if statusOf (l ++ CRLF) = 421 then .ok false
      else match throwNNTPError (statusOf (l ++ CRLF)) with
        | .error e => .error e
        | .ok () => .ok true := by
  rw [nextArticle, send_answers _ false s l rest h]
  simp only [Bool.false_eq_true, if_false]
  split
  · rfl
  · cases throwNNTPError (statusOf (l ++ CRLF)) <;> rfl

/-- C1 (as stated, refuted): the server answers the command next with 400, a code that is neither
421 nor a 2xx success code, and `nextArticle` returns true instead of raising. -/
theorem nextArticle_true_on_400 :
    Answers ⟨true, true, ["400 service discontinued\r\n".toList], []⟩
      "400 service discontinued".toList [] ∧
    statusOf "400 service discontinued\r\n".toList = 400 ∧
    (nextArticle ⟨true, true, ["400 service discontinued\r\n".toList], []⟩).1 = .ok true := by
  decide

/-- C1 (amended): for every status code `c` the server returns to the command next,
`nextArticle` returns false iff `c = 421`, raises iff `c` is one of the other codes that
`throwNNTPError` has a case for (and then raises the error of that code), and returns true
iff `c` is none of the codes of `throwNNTPError`. -/
theorem nextArticle_by_status (s : Socket) (l : List Char) (rest : List (List Char)) (c : Nat)
    (h : Answers s l rest) (hc : statusOf (l ++ CRLF) = c) :
    ((nextArticle s).1 = .ok false ↔ c = 421) ∧
    ((∃ e, (nextArticle s).1 = .error e) ↔ c ∈ errorCodes ∧ c ≠ 421) ∧
    (∀ e, (nextArticle s).1 = .error e → throwNNTPError c = .error e) ∧
    ((nextArticle s).1 = .ok true ↔ c ∉ errorCodes) := by
  rw [nextArticle_answers s l rest h, hc]
  by_cases h421 : c = 421
  · subst h421
    simp [errorCodes]
  · simp only [h421, if_false]
    cases ht : throwNNTPError c with
    | error e =>
      have hin := (throwNNTPError_error_iff c).mp ⟨e, ht⟩
      simp [hin, h421]
    | ok u =>
      have hnot := (throwNNTPError_ok_iff c).mp ht
      simp [hnot, h421]

/-- C1 (amended), instance: the reply 223 makes `nextArticle` return true. -/
theorem nextArticle_by_status_witness :
    Answers ⟨true, true, ["223 3001 <a@b> retrieved\r\n".toList], []⟩
      "223 3001 <a@b> retrieved".toList [] ∧
    statusOf ("223 3001 <a@b> retrieved".toList ++ CRLF) = 223 ∧
    (nextArticle ⟨true, true, ["223 3001 <a@b> retrieved\r\n".toList], []⟩).1 = .ok true :=
  ⟨by decide, by decide,
   (nextArticle_by_status ⟨true, true, ["223 3001 <a@b> retrieved\r\n".toList], []⟩
      "223 3001 <a@b> retrieved".toList [] 223 (by decide) (by decide)).2.2.2.mpr (by decide)⟩

/-- The boolean or error that both `existArticle` overloads derive from the status `c` of the
probe, `absent` being the code they read as absence. -/
theorem exist_switch (c absent : Nat) (s : Socket) :
    (if c = 223 then ((.ok true : Except Fault Bool), s)
      else if c = absent then (.ok false, s)
      else match throwNNTPError c with
        | .error e => (.error e, s)
        | .ok () => (.ok false, s)) =
    ((if c = 223 then .ok true
      else if c = absent then .ok false
      else match throwNNTPError c with
        | .error e => .error e
        | .ok () => .ok false), s) := by
  split
  · rfl
  · split
    · rfl
    · cases throwNNTPError c <;> rfl

/-- What `existArticle(p_messageid)` yields after the status of the reply is known. -/
theorem existArticle_answers (p_messageid : List Char) (s : Socket) (l : List Char) (rest : List (List Char))
    (h : Answers s l rest) :
    existArticle p_messageid s =
      ((if statusOf (l ++ CRLF) = 223 then .ok true
        else if statusOf (l ++ CRLF) = 430 then .ok false
        else match throwNNTPError (statusOf (l ++ CRLF)) with
          | .error e => .error e
          | .ok () => .ok false),
       { s with input := rest, output := s.output ++ ["stat ".toList ++ p_messageid ++ CRLF] }) := by
  rw [existArticle, send_answers _ false s l rest h]
  simp only [Bool.false_eq_true, if_false]
  exact exist_switch _ 430 _

/-- How the outcome of the probe depends on its status `c`. -/
theorem exist_switch_cases (c absent : Nat) (habs : absent ∈ errorCodes) (r : Except Fault Bool)
    (hr : r = (if c = 223 then .ok true
      else if c = absent then .ok false
      else match throwNNTPError c with
        | .error e => .error e
        | .ok () => .ok false)) :
    (r = .ok true ↔ c = 223) ∧
    ((∃ e, r = .error e) ↔ c ∈ errorCodes ∧ c ≠ absent) ∧
    (∀ e, r = .error e → throwNNTPError c = .error e) ∧
    (r = .ok false ↔ c = absent ∨ (c ≠ 223 ∧ c ∉ errorCodes)) := by
  subst hr
  have h223 : (223 : Nat) ∉ errorCodes := by decide
  by_cases h1 : c = 223
  · subst h1
    have : absent ≠ 223 := fun hx => h223 (hx ▸ habs)
    simp [h223, Ne.symm this]
  by_cases h2 : c = absent
  · subst h2
    simp [h1, habs]
  simp only [h1, h2, if_false]
  cases ht : throwNNTPError c with
  | error e =>
    have hin := (throwNNTPError_error_iff c).mp ⟨e, ht⟩
    simp [hin, h2]
  | ok u =>
    have hnot := (throwNNTPError_ok_iff c).mp ht
    simp [hnot, h1]

/-- C2 (as stated, refuted): the server answers the probe with 400, a code other than 223 and
430, and `existArticle` returns the boolean false instead of raising. -/
theorem existArticle_false_on_400 :
    Answers ⟨true, true, ["400 not accepting commands\r\n".toList], []⟩
      "400 not accepting commands".toList [] ∧
    statusOf "400 not accepting commands\r\n".toList = 400 ∧
    (existArticle "<1@example>".toList
      ⟨true, true, ["400 not accepting commands\r\n".toList], []⟩).1 = .ok false := by
  decide

/-- C2 (amended): for every message id and every status code `c` the server returns to the
probe, `existArticle` sends the single command stat with the id, returns true iff `c = 223`,
raises iff `c` is a code of `throwNNTPError` other than 430 (and then raises the error of that
code), and returns false iff `c = 430` or `c` is neither 223 nor a code of `throwNNTPError`. -/
theorem existArticle_by_status (p_messageid : List Char) (s : Socket) (l : List Char) (rest : List (List Char))
    (c : Nat) (h : Answers s l rest) (hc : statusOf (l ++ CRLF) = c) :
    (existArticle p_messageid s).2.output = s.output ++ ["stat ".toList ++ p_messageid ++ CRLF] ∧
    ((existArticle p_messageid s).1 = .ok true ↔ c = 223) ∧
    ((∃ e, (existArticle p_messageid s).1 = .error e) ↔ c ∈ errorCodes ∧ c ≠ 430) ∧
    (∀ e, (existArticle p_messageid s).1 = .error e → throwNNTPError c = .error e) ∧
    ((existArticle p_messageid s).1 = .ok false ↔ c = 430 ∨ (c ≠ 223 ∧ c ∉ errorCodes)) := by
  rw [existArticle_answers p_messageid s l rest h, hc]
  exact ⟨rfl, exist_switch_cases c 430 (by decide) _ rfl⟩

/-- C2 (amended), instance: the reply 430 makes `existArticle` return false. -/
theorem existArticle_by_status_witness :
    Answers ⟨true, true, ["430 no such article\r\n".toList], []⟩ "430 no such article".toList [] ∧
    statusOf ("430 no such article".toList ++ CRLF) = 430 ∧
    (existArticle "<1@example>".toList
      ⟨true, true, ["430 no such article\r\n".toList], []⟩).1 = .ok false :=
  ⟨by decide, by decide,
   (existArticle_by_status "<1@example>".toList ⟨true, true, ["430 no such article\r\n".toList], []⟩
      "430 no such article".toList [] 430 (by decide) (by decide)).2.2.2.2.mpr (by decide)⟩

/-- What `existArticle(p_group, p_articleid)` yields when the group command is answered by a
status without a case in `throwNNTPError` and the probe by the line `l2`. -/
theorem existArticleIn_answers (p_group p_articleid : List Char) (s : Socket)
    (l1 l2 : List Char) (rest1 rest : List (List Char))
    (h1 : Answers s l1 rest1) (h2 : StatusLine rest1 l2 rest)
    (hg : statusOf (l1 ++ CRLF) ∉ errorCodes) :
    existArticleIn p_group p_articleid s =
      ((if statusOf (l2 ++ CRLF) = 223 then .ok true
        else if statusOf (l2 ++ CRLF) = 423 then .ok false
        else match throwNNTPError (statusOf (l2 ++ CRLF)) with
          | .error e => .error e
          | .ok () => .ok false),
       { s with
          input := rest,
          output := s.output ++ ["group ".toList ++ p_group ++ CRLF] ++
            ["stat ".toList ++ p_articleid ++ CRLF] }) := by
  have hok := (throwNNTPError_ok_iff _).mpr hg
  have hA : Answers
      ({ s with
          input := rest1,
          output := s.output ++ ["group ".toList ++ p_group ++ CRLF] } : Socket) l2 rest :=
    ⟨h1.1, h1.2.1, h2⟩
  rw [existArticleIn, send_answers _ true s l1 _ h1]
  simp only [hok, if_true]
  rw [send_answers _ false _ l2 rest hA]
  simp only [Bool.false_eq_true, if_false]
  exact exist_switch _ 423 _

/-- C3 (as stated, refuted): the group is selected (211), the server answers the probe with
400, a code other than 223 and 423, and `existArticle` returns false instead of raising. -/
theorem existArticleIn_false_on_400 :
    Answers ⟨true, true, ["211 5 1 5 misc.test\r\n".toList, "400 shutting down\r\n".toList], []⟩
      "211 5 1 5 misc.test".toList ["400 shutting down\r\n".toList] ∧
    statusOf "211 5 1 5 misc.test\r\n".toList = 211 ∧
    statusOf "400 shutting down\r\n".toList = 400 ∧
    (existArticleIn "misc.test".toList "3".toList
      ⟨true, true, ["211 5 1 5 misc.test\r\n".toList, "400 shutting down\r\n".toList],
        []⟩).1 = .ok false := by
  decide

/-- C3 (amended): for every group and article id, `existArticle(group, articleId)` writes the
command group with the group name (status enforced) and then the command stat with the article
id; given the group selection raised nothing, for every status code `c` of the stat reply it
returns true iff `c = 223`, raises iff `c` is a code of `throwNNTPError` other than 423 (430
included, and then raises the error of that code), and returns false iff `c = 423` or `c` is
neither 223 nor a code of `throwNNTPError`. -/
theorem existArticleIn_by_status (p_group p_articleid : List Char) (s : Socket)
    (l1 l2 : List Char) (rest1 rest : List (List Char)) (c : Nat)
    (h1 : Answers s l1 rest1) (h2 : StatusLine rest1 l2 rest)
    (hg : statusOf (l1 ++ CRLF) ∉ errorCodes) (hc : statusOf (l2 ++ CRLF) = c) :
    (existArticleIn p_group p_articleid s).2.output =
      s.output ++ ["group ".toList ++ p_group ++ CRLF] ++ ["stat ".toList ++ p_articleid ++ CRLF] ∧
    ((existArticleIn p_group p_articleid s).1 = .ok true ↔ c = 223) ∧
    ((∃ e, (existArticleIn p_group p_articleid s).1 = .error e) ↔ c ∈ errorCodes ∧ c ≠ 423) ∧
    (∀ e, (existArticleIn p_group p_articleid s).1 = .error e → throwNNTPError c = .error e) ∧
    ((existArticleIn p_group p_articleid s).1 = .ok false ↔
      c = 423 ∨ (c ≠ 223 ∧ c ∉ errorCodes)) := by
  rw [existArticleIn_answers p_group p_articleid s l1 l2 rest1 rest h1 h2 hg, hc]
  exact ⟨rfl, exist_switch_cases c 423 (by decide) _ rfl⟩

/-- C3 (amended), instance: group selected with 211, probe answered 430: the error of code 430
is raised after both commands were written. -/
theorem existArticleIn_by_status_witness :
    Answers ⟨true, true, ["211 5 1 5 misc.test\r\n".toList, "430 no such article\r\n".toList], []⟩
      "211 5 1 5 misc.test".toList ["430 no such article\r\n".toList] ∧
    StatusLine ["430 no such article\r\n".toList] "430 no such article".toList [] ∧
    statusOf ("211 5 1 5 misc.test".toList ++ CRLF) ∉ errorCodes ∧
    statusOf ("430 no such article".toList ++ CRLF) = 430 ∧
    (∃ e, (existArticleIn "misc.test".toList "3".toList
      ⟨true, true, ["211 5 1 5 misc.test\r\n".toList, "430 no such article\r\n".toList],
        []⟩).1 = .error e) :=
  ⟨by decide, by decide, by decide, by decide,
   (existArticleIn_by_status "misc.test".toList "3".toList
      ⟨true, true, ["211 5 1 5 misc.test\r\n".toList, "430 no such article\r\n".toList], []⟩
      "211 5 1 5 misc.test".toList "430 no such article".toList
      ["430 no such article\r\n".toList] [] 430
      (by decide) (by decide) (by decide) (by decide)).2.2.1.mpr (by decide)⟩

/-- C4: for each of the codes 0, 411, 412, 420, 421, 422, 423, 430, 435, 436, 437, 440, 441,
500, 501, 502 and 503 `throwNNTPError` raises the parameter error with the message of that
code, and for the informational codes 211 and 223 it raises nothing. -/
theorem throwNNTPError_table :
    throwNNTPError 0 = .error (.parameter "error while reading socket data") ∧
    throwNNTPError 411 = .error (.parameter "no such group") ∧
    throwNNTPError 412 = .error (.parameter "no newsgroup has been selected") ∧
    throwNNTPError 420 = .error (.parameter "no article has been selected") ∧
    throwNNTPError 421 = .error (.parameter "no next article found") ∧
    throwNNTPError 422 = .error (.parameter "no previous article found") ∧
    throwNNTPError 423 = .error (.parameter "no such article number in this group") ∧
    throwNNTPError 430 = .error (.parameter "no such article found") ∧
    throwNNTPError 435 = .error (.parameter "article not wanted - do not send") ∧
    throwNNTPError 436 = .error (.parameter "transfer failed - try again later") ∧
    throwNNTPError 437 = .error (.parameter "article rejected - do not try again") ∧
    throwNNTPError 440 = .error (.parameter "posting not allowed") ∧
    throwNNTPError 441 = .error (.parameter "posting failed") ∧
    throwNNTPError 500 = .error (.parameter "command not recognized") ∧
    throwNNTPError 501 = .error (.parameter "command syntax error") ∧
    throwNNTPError 502 = .error (.parameter "access restriction or permission denied") ∧
    throwNNTPError 503 = .error (.parameter "program fault") ∧
    throwNNTPError 211 = .ok () ∧
    throwNNTPError 223 = .ok () := by
  refine ⟨rfl, rfl, rfl, rfl, rfl, rfl, rfl, rfl, rfl, rfl, rfl, rfl, rfl, rfl, rfl, rfl, rfl,
    rfl, rfl⟩

/-- C5 (as stated, refuted): the codes 400, 499 and 504 are not in the status table, and a
command sent with status enforcement on returns each of them normally instead of raising. -/
theorem send_returns_unlisted :
    (send "list active".toList true ⟨true, true, ["400 service discontinued\r\n".toList], []⟩).1
      = .ok 400 ∧
    (send "list active".toList true ⟨true, true, ["499 whatever\r\n".toList], []⟩).1 = .ok 499 ∧
    (send "list active".toList true ⟨true, true, ["504 whatever\r\n".toList], []⟩).1 = .ok 504 := by
  decide

/-- C5 (amended): for every status code `c` that `throwNNTPError` has no case for (400, 499 and
504 among them), a command sent with status enforcement on raises nothing: `send(cmd, true)`
returns `c` to its caller; it raises exactly for the codes `throwNNTPError` has a case for. -/
theorem send_enforced_by_status (p_cmd : List Char) (s : Socket) (l : List Char) (rest : List (List Char)) (c : Nat)
    (h : Answers s l rest) (hc : statusOf (l ++ CRLF) = c) :
    (c ∉ errorCodes → (send p_cmd true s).1 = .ok c) ∧
    ((∃ e, (send p_cmd true s).1 = .error e) ↔ c ∈ errorCodes) ∧
    (∀ e, (send p_cmd true s).1 = .error e ↔ throwNNTPError c = .error e) := by
  rw [send_answers p_cmd true s l rest h, hc]
  simp only [if_true]
  cases ht : throwNNTPError c with
  | error e =>
    have hin := (throwNNTPError_error_iff c).mp ⟨e, ht⟩
    simp [hin]
  | ok u =>
    have hnot := (throwNNTPError_ok_iff c).mp ht
    simp [hnot]

/-- C5 (amended), instance: the reply 504 to an enforced command is returned as 504. -/
theorem send_enforced_by_status_witness :
    Answers ⟨true, true, ["504 whatever\r\n".toList], []⟩ "504 whatever".toList [] ∧
    statusOf ("504 whatever".toList ++ CRLF) = 504 ∧
    (send "list active".toList true ⟨true, true, ["504 whatever\r\n".toList], []⟩).1 = .ok 504 :=
  ⟨by decide, by decide,
   (send_enforced_by_status "list active".toList ⟨true, true, ["504 whatever\r\n".toList], []⟩
      "504 whatever".toList [] 504 (by decide) (by decide)).1 (by decide)⟩

/-- C10 (as stated, refuted): the server answers the group command with 400, a code other than
211, and `setGroup` returns normally. -/
theorem setGroup_returns_on_400 :
    Answers ⟨true, true, ["400 load too high\r\n".toList], []⟩ "400 load too high".toList [] ∧
    statusOf "400 load too high\r\n".toList = 400 ∧
    (setGroup "misc.test".toList ⟨true, true, ["400 load too high\r\n".toList], []⟩).1
      = .ok () := by
  decide

/-- C10 (amended): for every group name and every status code `c` the server returns to the
group command, `setGroup` writes that one command and returns normally iff `c` is none of the
codes `throwNNTPError` has a case for (211 is none of them); for each of those codes it raises
the error of that code. -/
theorem setGroup_by_status (p_group : List Char) (s : Socket) (l : List Char) (rest : List (List Char)) (c : Nat)
    (h : Answers s l rest) (hc : statusOf (l ++ CRLF) = c) :
    (setGroup p_group s).2.output = s.output ++ ["group ".toList ++ p_group ++ CRLF] ∧
    ((setGroup p_group s).1 = .ok () ↔ c ∉ errorCodes) ∧
    (c = 211 → (setGroup p_group s).1 = .ok ()) ∧
    (∀ e, (setGroup p_group s).1 = .error e ↔ throwNNTPError c = .error e) := by
  rw [setGroup, send_answers _ true s l rest h, hc]
  simp only [if_true]
  cases ht : throwNNTPError c with
  | error e =>
    have hin := (throwNNTPError_error_iff c).mp ⟨e, ht⟩
    refine ⟨rfl, by simp [hin], ?_, by simp⟩
    intro h211
    subst h211
    exact absurd hin (by decide)
  | ok u =>
    have hnot := (throwNNTPError_ok_iff c).mp ht
    simp [hnot]

/-- C10 (amended), instance: the reply 411 makes `setGroup` raise the error of code 411. -/
theorem setGroup_by_status_witness :
    Answers ⟨true, true, ["411 no such group\r\n".toList], []⟩ "411 no such group".toList [] ∧
    statusOf ("411 no such group".toList ++ CRLF) = 411 ∧
    (setGroup "misc.nowhere".toList ⟨true, true, ["411 no such group\r\n".toList], []⟩).1
      = .error (.parameter "no such group") :=
  ⟨by decide, by decide,
   ((setGroup_by_status "misc.nowhere".toList ⟨true, true, ["411 no such group\r\n".toList], []⟩
      "411 no such group".toList [] 411 (by decide) (by decide)).2.2.2 _).mpr rfl⟩

/-- Erasing the last five bytes of a buffer that ends with the closing delimiter. -/
theorem take_sub_five (x : List Char) :
    (x ++ DOTCRLF).take ((x ++ DOTCRLF).length - 5) = x :=
  List.take_left' (by simp [DOTCRLF])

/-- Reading a body whose closing delimiter first occurs right after `p`, and ends a delivery,
yields `p`. -/
theorem getResponseData_firstAt (s : Socket) (p : List Char) (rest : List (List Char))
    (ho : s.is_open = true) (h : Arrives DOTCRLF s.input p rest) :
    getResponseData s = (.ok p, { s with input := rest }) := by
  rw [getResponseData, read_until_arrives DOTCRLF s p rest DOTCRLF_ne_nil ho h]
  have hlen : ¬ (p ++ DOTCRLF).length < 5 := by simp [DOTCRLF]
  simp only [hlen, if_false]
  rw [take_sub_five]

/-- When cutting after the first delimiter gives `p` and the delimiter, the delimiter does not
occur before the end of `p`. -/
theorem firstAt_of_splitAfter (d p rest : List Char)
    (h : splitAfter d (p ++ d ++ rest) = some (p ++ d, rest)) : FirstAt d p := by
  induction p with
  | nil =>
    intro k hk
    simp at hk
  | cons a p ih =>
    have hcons : (a :: p) ++ d ++ rest = a :: (p ++ d ++ rest) := by simp
    rw [hcons, splitAfter] at h
    cases hp : d.isPrefixOf (a :: (p ++ d ++ rest)) with
    | true =>
      rw [hp] at h
      simp only [if_true, Option.some.injEq, Prod.mk.injEq] at h
      have := congrArg List.length h.1
      simp only [List.length_append, List.length_cons] at this
      omega
    | false =>
      rw [hp] at h
      simp only [Bool.false_eq_true, if_false] at h
      cases hs : splitAfter d (p ++ d ++ rest) with
      | none =>
        rw [hs] at h
        simp at h
      | some pr =>
        obtain ⟨pre, r⟩ := pr
        rw [hs] at h
        simp only [Option.some.injEq, Prod.mk.injEq, List.cons_append, List.cons.injEq,
          true_and] at h
        obtain ⟨h1, h2⟩ := h
        subst h1 h2
        have hf := ih hs
        intro k hk
        cases k with
        | zero =>
          cases hb : d.isPrefixOf ((a :: p) ++ d) with
          | false => simpa using hb
          | true =>
            have := isPrefixOf_append_mono d _ r hb
            simp only [List.cons_append, List.append_assoc] at this hp
            rw [hp] at this
            exact absurd this (by simp)
        | succ k =>
          have := hf k (by simpa using hk)
          simpa using this

/-- C8: whenever the five bytes CR LF dot CR LF first occur in `p` followed by them at offset
`p.length`, reading that stream with `getResponseData` returns exactly `p`, so only the five
closing bytes are removed and lines of `p` that begin with a dot come back unchanged. The stream
may be cut into deliveries in any way; the deliveries that come after it stay unread. -/
theorem getResponseData_payload (s : Socket) (p : List Char) (chunks rest : List (List Char))
    (ho : s.is_open = true) (hf : FirstAt DOTCRLF p)
    (hc : ∀ c ∈ chunks, c ≠ []) (hj : chunks.flatten = p ++ DOTCRLF)
    (hi : s.input = chunks ++ rest) :
    (getResponseData s).1 = .ok p ∧ (getResponseData s).2.input = rest ∧
    (getResponseData s).2.output = s.output := by
  rw [getResponseData_firstAt s p rest ho ⟨hf, chunks, hc, hj, hi⟩]
  exact ⟨rfl, rfl, rfl⟩

/-- C8, instance: a payload with a dot-stuffed second line, arriving in three deliveries the
second of which ends inside the delimiter, is returned byte for byte. -/
theorem getResponseData_payload_witness :
    FirstAt DOTCRLF "one\r\n..two".toList ∧
    (∀ c ∈ ["one\r".toList, "\n..two\r\n.".toList, "\r\n".toList], c ≠ []) ∧
    ["one\r".toList, "\n..two\r\n.".toList, "\r\n".toList].flatten
      = "one\r\n..two".toList ++ DOTCRLF ∧
    (getResponseData
      ⟨true, true, ["one\r".toList, "\n..two\r\n.".toList, "\r\n".toList], []⟩).1
      = .ok "one\r\n..two".toList :=
  ⟨by decide, by decide, by decide,
   (getResponseData_payload
      ⟨true, true, ["one\r".toList, "\n..two\r\n.".toList, "\r\n".toList], []⟩
      "one\r\n..two".toList ["one\r".toList, "\n..two\r\n.".toList, "\r\n".toList] []
      rfl (by decide) (by decide) (by decide) rfl).1⟩

/-- The closing delimiter cannot begin inside a line that holds no LF and is followed by CR. -/
theorem splitAfter_skip_line (l y pre r : List Char) (hn : '\n' ∉ l)
    (h : splitAfter DOTCRLF ('\r' :: y) = some (pre, r)) :
    splitAfter DOTCRLF (l ++ '\r' :: y) = some (l ++ pre, r) := by
  induction l with
  | nil => simpa using h
  | cons a l ih =>
    have hl : '\n' ∉ l := fun hx => hn (List.mem_cons_of_mem _ hx)
    have hp : DOTCRLF.isPrefixOf (a :: (l ++ '\r' :: y)) = false := by
      cases l with
      | nil => simp [DOTCRLF, List.isPrefixOf]
      | cons b l =>
        have hb : b ≠ '\n' := fun hx => hn (by simp [hx])
        simp [DOTCRLF, List.isPrefixOf, Ne.symm hb]
    rw [List.cons_append, splitAfter]
    simp only [hp, ih hl]
    simp

/-- A line other than the single dot, holding no LF and followed by CR, does not start with
dot CR LF. -/
theorem not_dot_line (m z : List Char) (hn : '\n' ∉ m) (hd : m ≠ ['.']) :
    ['.', '\r', '\n'].isPrefixOf (m ++ '\r' :: z) = false := by
  match m, hn, hd with
  | [], _, _ => simp [List.isPrefixOf]
  | [a], _, hd =>
    have : a ≠ '.' := fun hx => hd (by simp [hx])
    simp [List.isPrefixOf, Ne.symm this]
  | a :: b :: c :: m, hn, _ =>
    have hc : c ≠ '\n' := fun hx => hn (by simp [hx])
    simp [List.isPrefixOf, Ne.symm hc]
  | [a, b], hn, _ =>
    simp [List.isPrefixOf]

theorem crlfLines_append_last (ls : List (List Char)) (last t : List Char) :
    crlfLines (ls ++ [last]) ++ ['.', '\r', '\n'] ++ t = crlfLines ls ++ last ++ DOTCRLF ++ t := by
  induction ls with
  | nil => simp [crlfLines, CRLF, DOTCRLF]
  | cons l ls ih =>
    show crlfLines (l :: (ls ++ [last])) ++ ['.', '\r', '\n'] ++ t = _
    simp only [crlfLines, List.append_assoc] at ih ⊢
    rw [ih]

/-- The stream of lines starts with its first line followed by CR. -/
theorem lines_head (ls : List (List Char)) (last rest : List Char)
    (hn : ∀ l ∈ ls ++ [last], '\n' ∉ l) (hd : ∀ l ∈ ls ++ [last], l ≠ ['.']) :
    ∃ m z, crlfLines ls ++ last ++ DOTCRLF ++ rest = m ++ '\r' :: z ∧ '\n' ∉ m ∧ m ≠ ['.'] := by
  cases ls with
  | nil =>
    exact ⟨last, '\n' :: '.' :: '\r' :: '\n' :: rest, by simp [crlfLines, DOTCRLF],
      hn last (by simp), hd last (by simp)⟩
  | cons l ls =>
    exact ⟨l, '\n' :: (crlfLines ls ++ last ++ DOTCRLF ++ rest), by simp [crlfLines, CRLF],
      hn l (by simp), hd l (by simp)⟩

/-- Reading up to the closing delimiter runs through every line that is not the single dot. -/
theorem splitAfter_lines (ls : List (List Char)) (last rest : List Char)
    (hn : ∀ l ∈ ls ++ [last], '\n' ∉ l) (hd : ∀ l ∈ ls ++ [last], l ≠ ['.']) :
    splitAfter DOTCRLF (crlfLines ls ++ last ++ DOTCRLF ++ rest)
      = some (crlfLines ls ++ last ++ DOTCRLF, rest) := by
  induction ls with
  | nil =>
    have h0 : splitAfter DOTCRLF ('\r' :: ('\n' :: '.' :: '\r' :: '\n' :: rest))
        = some (DOTCRLF, rest) := by
      simp [splitAfter, DOTCRLF, List.isPrefixOf]
    have := splitAfter_skip_line last _ _ _ (hn last (by simp)) h0
    simpa [crlfLines, DOTCRLF] using this
  | cons l ls ih =>
    have hn2 : ∀ x ∈ ls ++ [last], '\n' ∉ x := fun x hx => hn x (by simp at hx ⊢; tauto)
    have hd2 : ∀ x ∈ ls ++ [last], x ≠ ['.'] := fun x hx => hd x (by simp at hx ⊢; tauto)
    have ih2 := ih hn2 hd2
    obtain ⟨m, z, hm, hmn, hmd⟩ := lines_head ls last rest hn2 hd2
    have hdot := not_dot_line m z hmn hmd
    rw [← hm] at hdot
    have h0 : splitAfter DOTCRLF ('\r' :: ('\n' :: (crlfLines ls ++ last ++ DOTCRLF ++ rest)))
        = some (CRLF ++ (crlfLines ls ++ last ++ DOTCRLF), rest) := by
      rw [splitAfter]
      have hp : DOTCRLF.isPrefixOf ('\r' :: '\n' :: (crlfLines ls ++ last ++ DOTCRLF ++ rest))
          = false := by
        simpa [DOTCRLF, List.isPrefixOf] using hdot
      simp only [hp]
      rw [splitAfter]
      have hq : DOTCRLF.isPrefixOf ('\n' :: (crlfLines ls ++ last ++ DOTCRLF ++ rest))
          = false := by
        simp [DOTCRLF, List.isPrefixOf]
      simp only [hq, ih2]
      simp [CRLF]
    have := splitAfter_skip_line l _ _ _ (hn l (by simp)) h0
    simpa [crlfLines, CRLF] using this

/-- In a stream of lines none of which is the single dot, the closing delimiter first occurs
after the last line. -/
theorem firstAt_lines (ls : List (List Char)) (last : List Char)
    (hn : ∀ l ∈ ls ++ [last], '\n' ∉ l) (hd : ∀ l ∈ ls ++ [last], l ≠ ['.']) :
    FirstAt DOTCRLF (crlfLines ls ++ last) :=
  firstAt_of_splitAfter DOTCRLF (crlfLines ls ++ last) [] (splitAfter_lines ls last [] hn hd)

/-- C7 (as stated, refuted): on the raw bytes of the witness the reader returns the two lines
without the CR LF of the second one, not the text the claim names. -/
theorem getResponseData_drops_last_crlf :
    (getResponseData ⟨true, true, ["line1\r\nline2\r\n.\r\n".toList], []⟩).1
      = .ok "line1\r\nline2".toList ∧
    (getResponseData ⟨true, true, ["line1\r\nline2\r\n.\r\n".toList], []⟩).1
      ≠ .ok "line1\r\nline2\r\n".toList := by
  decide

/-- C7 (amended): for every input made of one or more CR LF terminated lines, none of them the
single dot, followed by the terminating line dot CR LF, `getResponseData` returns the lines
before the last with their CR LF kept and the last line without its CR LF: the five bytes
CR LF dot CR LF are removed and nothing else is altered. -/
theorem getResponseData_lines (s : Socket) (ls : List (List Char)) (last : List Char)
    (chunks rest : List (List Char)) (ho : s.is_open = true)
    (hn : ∀ l ∈ ls ++ [last], '\n' ∉ l) (hd : ∀ l ∈ ls ++ [last], l ≠ ['.'])
    (hc : ∀ c ∈ chunks, c ≠ [])
    (hj : chunks.flatten = crlfLines (ls ++ [last]) ++ ['.', '\r', '\n'])
    (hi : s.input = chunks ++ rest) :
    (getResponseData s).1 = .ok (crlfLines ls ++ last) ∧
    (getResponseData s).2.input = rest := by
  have hj2 : chunks.flatten = crlfLines ls ++ last ++ DOTCRLF := by
    have := crlfLines_append_last ls last []
    simp only [List.append_nil] at this
    rw [hj, this]
  rw [getResponseData_firstAt s _ rest ho ⟨firstAt_lines ls last hn hd, chunks, hc, hj2, hi⟩]
  exact ⟨rfl, rfl⟩

/-- C7 (amended), instance: the witness bytes, arriving in one delivery, give the two lines
without the last CR LF. -/
theorem getResponseData_lines_witness :
    (∀ l ∈ ["line1".toList] ++ ["line2".toList], '\n' ∉ l) ∧
    (∀ l ∈ ["line1".toList] ++ ["line2".toList], l ≠ ['.']) ∧
    (∀ c ∈ ["line1\r\nline2\r\n.\r\n".toList], c ≠ []) ∧
    ["line1\r\nline2\r\n.\r\n".toList].flatten
      = crlfLines (["line1".toList] ++ ["line2".toList]) ++ ['.', '\r', '\n'] ∧
    (getResponseData ⟨true, true, ["line1\r\nline2\r\n.\r\n".toList], []⟩).1
      = .ok (crlfLines ["line1".toList] ++ "line2".toList) :=
  ⟨by decide, by decide, by decide, by decide,
   (getResponseData_lines ⟨true, true, ["line1\r\nline2\r\n.\r\n".toList], []⟩
      ["line1".toList] "line2".toList ["line1\r\nline2\r\n.\r\n".toList] []
      rfl (by decide) (by decide) (by decide) (by decide) rfl).1⟩

theorem isSuccess_not_error {c : Nat} (h : isSuccess c) : c ∉ errorCodes := by
  unfold isSuccess at h
  unfold errorCodes
  simp only [List.mem_cons, List.mem_singleton, List.not_mem_nil, or_false, not_or]
  omega

/-- The loop over the ids against a server that answers every fetch with a success status and
a body, each status line and each body arriving as a delivery of its own. -/
theorem getArticlesLoop_replies (cmd : List Char)
    (xs : List (List Char × List Char × List Char)) (l_data : List (List Char)) (s : Socket)
    (rest : List (List Char)) (ho : s.is_open = true) (ha : s.alive = true)
    (hx : ∀ x ∈ xs, FirstAt CRLF x.2.1 ∧ isSuccess (statusOf (x.2.1 ++ CRLF)) ∧
      FirstAt DOTCRLF x.2.2)
    (hi : s.input = fetchReplies xs ++ rest) :
    getArticlesLoop cmd (xs.map (·.1)) l_data s =
      (.ok (l_data ++ xs.map (·.2.2)),
       { s with
          input := rest,
          output := s.output ++ xs.map (fun x => cmd ++ " ".toList ++ x.1 ++ CRLF) }) := by
  induction xs generalizing l_data s with
  | nil =>
    cases s
    simp_all [getArticlesLoop, fetchReplies]
  | cons x xs ih =>
    obtain ⟨h1, h2, h3⟩ := hx x (by simp)
    simp only [fetchReplies, List.cons_append] at hi
    have hA : Answers s x.2.1 ((x.2.2 ++ DOTCRLF) :: (fetchReplies xs ++ rest)) :=
      ⟨ho, ha, by rw [hi]; exact StatusLine.of_arrives (arrives_single CRLF _ _ CRLF_ne_nil h1)⟩
    have hok := (throwNNTPError_ok_iff _).mpr (isSuccess_not_error h2)
    simp only [List.map_cons, getArticlesLoop]
    rw [send_answers _ true s _ _ hA]
    simp only [hok, if_true]
    rw [getResponseData_firstAt
      ({ s with
          input := (x.2.2 ++ DOTCRLF) :: (fetchReplies xs ++ rest),
          output := s.output ++ [cmd ++ " ".toList ++ x.1 ++ CRLF] } : Socket)
      x.2.2 (fetchReplies xs ++ rest) ho (arrives_single DOTCRLF _ _ DOTCRLF_ne_nil h3)]
    simp only []
    rw [ih (l_data ++ [x.2.2])
      ({ s with
          input := fetchReplies xs ++ rest,
          output := s.output ++ [cmd ++ " ".toList ++ x.1 ++ CRLF] } : Socket)
      ho ha (fun y hy => hx y (by simp [hy])) rfl]
    simp

/-- The fetch of a list of ids in a group, when every status line and every body arrives as a
delivery of its own and every status is a 2xx code: the group command and one fetch command per
id are written in input order and the bodies come back in that order; later deliveries stay
unread. -/
theorem getArticlesIn_ordered (p_group : List Char) (p_content : content) (s : Socket)
    (g : List Char) (xs : List (List Char × List Char × List Char)) (rest : List (List Char))
    (ho : s.is_open = true) (ha : s.alive = true)
    (hg : FirstAt CRLF g ∧ isSuccess (statusOf (g ++ CRLF)))
    (hx : ∀ x ∈ xs, FirstAt CRLF x.2.1 ∧ isSuccess (statusOf (x.2.1 ++ CRLF)) ∧
      FirstAt DOTCRLF x.2.2)
    (hi : s.input = (g ++ CRLF) :: (fetchReplies xs ++ rest)) :
    (getArticlesIn p_group (xs.map (·.1)) p_content s).1 = .ok (xs.map (·.2.2)) ∧
    (getArticlesIn p_group (xs.map (·.1)) p_content s).2.output =
      s.output ++ ["group ".toList ++ p_group ++ CRLF] ++
        xs.map (fun x => l_cmd p_content ++ " ".toList ++ x.1 ++ CRLF) ∧
    (getArticlesIn p_group (xs.map (·.1)) p_content s).2.input = rest := by
  have hA : Answers s g (fetchReplies xs ++ rest) :=
    ⟨ho, ha, by rw [hi]; exact StatusLine.of_arrives (arrives_single CRLF _ _ CRLF_ne_nil hg.1)⟩
  have hok := (throwNNTPError_ok_iff _).mpr (isSuccess_not_error hg.2)
  rw [getArticlesIn, send_answers _ true s _ _ hA]
  simp only [hok, if_true]
  rw [getArticlesLoop_replies (l_cmd p_content) xs []
    ({ s with
        input := fetchReplies xs ++ rest,
        output := s.output ++ ["group ".toList ++ p_group ++ CRLF] } : Socket)
    rest ho ha hx rfl]
  simp

theorem strLess_irrefl (a : List Char) : strLess a a = false := by
  induction a with
  | nil => rfl
  | cons x a ih => simp [strLess, ih]

theorem strLess_trans {a b c : List Char} (h1 : strLess a b = true) (h2 : strLess b c = true) :
    strLess a c = true := by
  induction a generalizing b c with
  | nil =>
    cases b with
    | nil => simp [strLess] at h1
    | cons y b =>
      cases c with
      | nil => simp [strLess] at h2
      | cons z c => rfl
  | cons x a ih =>
    cases b with
    | nil => simp [strLess] at h1
    | cons y b =>
      cases c with
      | nil => simp [strLess] at h2
      | cons z c =>
        simp only [strLess] at h1 h2 ⊢
        rcases lt_trichotomy x y with hxy | hxy | hxy
        · rcases lt_trichotomy y z with hyz | hyz | hyz
          · simp [lt_trans hxy hyz]
          · subst hyz; simp [hxy]
          · simp [hyz, lt_asymm hyz] at h2
        · subst hxy
          rcases lt_trichotomy x z with hxz | hxz | hxz
          · simp [hxz]
          · subst hxz
            simp only [lt_irrefl, if_false] at h1 h2 ⊢
            exact ih h1 h2
          · simp [hxz, lt_asymm hxz] at h2
        · simp [hxy, lt_asymm hxy] at h1

theorem strLess_total {a b : List Char} (hne : a ≠ b) (h : strLess a b = false) :
    strLess b a = true := by
  induction a generalizing b with
  | nil =>
    cases b with
    | nil => exact absurd rfl hne
    | cons y b => simp [strLess] at h
  | cons x a ih =>
    cases b with
    | nil => rfl
    | cons y b =>
      simp only [strLess] at h ⊢
      rcases lt_trichotomy x y with hxy | hxy | hxy
      · simp [hxy] at h
      · subst hxy
        simp only [lt_irrefl, if_false] at h ⊢
        exact ih (fun hab => hne (by rw [hab])) h
      · simp [hxy]

theorem mapSet_sub (m : GroupMap) (k : List Char) (v : Nat) (b : List Char × Nat)
    (h : b ∈ mapSet m k v) : b = (k, v) ∨ b ∈ m := by
  induction m with
  | nil => simpa [mapSet] using h
  | cons e m ih =>
    obtain ⟨k1, v1⟩ := e
    simp only [mapSet] at h
    split at h
    · simp only [List.mem_cons] at h ⊢
      tauto
    · split at h
      · simp only [List.mem_cons] at h ⊢
        tauto
      · simp only [List.mem_cons] at h ⊢
        rcases h with h | h
        · tauto
        · have := ih h
          tauto

theorem mapSet_sorted (m : GroupMap) (k : List Char) (v : Nat) (hs : KeySorted m) :
    KeySorted (mapSet m k v) := by
  induction m with
  | nil => simp [mapSet, KeySorted]
  | cons e m ih =>
    obtain ⟨k1, v1⟩ := e
    unfold KeySorted at hs ih ⊢
    rw [List.pairwise_cons] at hs
    obtain ⟨h1, h2⟩ := hs
    simp only [mapSet]
    split
    · rename_i hk
      subst hk
      exact List.pairwise_cons.mpr ⟨h1, h2⟩
    · split
      · rename_i hk hlt
        refine List.pairwise_cons.mpr ⟨?_, List.pairwise_cons.mpr ⟨h1, h2⟩⟩
        intro b hb
        rcases List.mem_cons.mp hb with hb | hb
        · subst hb; exact hlt
        · exact strLess_trans hlt (h1 b hb)
      · rename_i hk hlt
        have hgt : strLess k1 k = true := strLess_total hk (by simpa using hlt)
        refine List.pairwise_cons.mpr ⟨?_, ih h2⟩
        intro b hb
        rcases mapSet_sub m k v b hb with hb | hb
        · subst hb; exact hgt
        · exact h1 b hb

theorem strLess_ne {a b : List Char} (h : strLess a b = true) : a ≠ b := by
  intro hab
  subst hab
  simp [strLess_irrefl] at h

theorem mapSet_mem (m : GroupMap) (k : List Char) (v : Nat) (hs : KeySorted m)
    (k2 : List Char) (v2 : Nat) :
    (k2, v2) ∈ mapSet m k v ↔ (k2 = k ∧ v2 = v) ∨ (k2 ≠ k ∧ (k2, v2) ∈ m) := by
  induction m with
  | nil => simp [mapSet]
  | cons e m ih =>
    obtain ⟨k1, v1⟩ := e
    unfold KeySorted at hs ih
    rw [List.pairwise_cons] at hs
    obtain ⟨h1, h2⟩ := hs
    simp only [mapSet]
    split
    · rename_i hk
      subst hk
      simp only [List.mem_cons, Prod.mk.injEq]
      constructor
      · rintro (h | h)
        · exact Or.inl h
        · exact Or.inr ⟨(strLess_ne (h1 _ h)).symm, Or.inr h⟩
      · rintro (h | ⟨hne, h | h⟩)
        · exact Or.inl h
        · exact absurd h.1 hne
        · exact Or.inr h
    · split
      · rename_i hk hlt
        simp only [List.mem_cons, Prod.mk.injEq]
        constructor
        · rintro (h | h | h)
          · exact Or.inl h
          · exact Or.inr ⟨by rw [h.1]; exact fun hx => hk hx.symm, Or.inl h⟩
          · exact Or.inr ⟨(strLess_ne (strLess_trans hlt (h1 _ h))).symm, Or.inr h⟩
        · rintro (h | ⟨_, h⟩)
          · exact Or.inl h
          · exact Or.inr h
      · rename_i hk hlt
        simp only [List.mem_cons, Prod.mk.injEq, ih h2]
        constructor
        · rintro (h | h | h)
          · exact Or.inr ⟨by rw [h.1]; exact fun hx => hk hx.symm, Or.inl h⟩
          · exact Or.inl h
          · exact Or.inr ⟨h.1, Or.inr h.2⟩
        · rintro (h | ⟨hne, h | h⟩)
          · exact Or.inr (Or.inl h)
          · exact Or.inl h
          · exact Or.inr (Or.inr ⟨hne, h⟩)

theorem keySorted_nodup (m : GroupMap) (hs : KeySorted m) : (m.map Prod.fst).Nodup := by
  unfold KeySorted at hs
  rw [List.Nodup, List.pairwise_map]
  exact hs.imp (fun h => strLess_ne h)

theorem split_of_not_mem (sep : Char) (a : List Char) (h : sep ∉ a) : split sep a = [a] := by
  induction a with
  | nil => rfl
  | cons c a ih =>
    have hc : c ≠ sep := fun hx => h (by simp [hx])
    have ha : sep ∉ a := fun hx => h (List.mem_cons_of_mem _ hx)
    simp [split, hc, ih ha]

theorem split_append_sep (sep : Char) (a b : List Char) (h : sep ∉ a) :
    split sep (a ++ sep :: b) = a :: split sep b := by
  induction a with
  | nil => simp [split]
  | cons c a ih =>
    have hc : c ≠ sep := fun hx => h (by simp [hx])
    have ha : sep ∉ a := fun hx => h (List.mem_cons_of_mem _ hx)
    simp [split, hc, ih ha]

/-- Splitting a run of CR LF closed lines at LF leaves the CR on every line. -/
theorem split_crlfLines (ls : List (List Char)) (last : List Char)
    (hn : ∀ l ∈ ls ++ [last], '\n' ∉ l) :
    split '\n' (crlfLines ls ++ last) = ls.map (· ++ ['\r']) ++ [last] := by
  induction ls with
  | nil => simpa [crlfLines] using split_of_not_mem '\n' last (hn last (by simp))
  | cons l ls ih =>
    have hl : '\n' ∉ l ++ ['\r'] := by
      have := hn l (by simp)
      simp [this]
    have h2 := ih (fun x hx => hn x (by simp at hx ⊢; tauto))
    have := split_append_sep '\n' (l ++ ['\r']) (crlfLines ls ++ last) hl
    simp only [crlfLines, CRLF, List.append_assoc, List.cons_append, List.nil_append,
      List.map_cons] at this ⊢
    rw [this, h2]

/-- The two erasures remove one header line and two trailer lines. -/
theorem eraseEnds_frame (h : List Char) (mid : List (List Char)) (t1 t2 : List Char) :
    eraseEnds (h :: (mid ++ [t1, t2])) = .ok mid := by
  have hlen : ¬ (mid ++ [t1, t2]).length < 2 := by simp
  simp only [eraseEnds, hlen, if_false]
  congr 1
  exact List.take_left' (by simp)

theorem split_text (e : GroupLine) (hn : ' ' ∉ e.name) (hc : ' ' ∉ e.count) :
    split ' ' (e.text ++ ['\r']) = e.name :: e.count :: split ' ' (e.more ++ ['\r']) := by
  have h1 := split_append_sep ' ' e.name (e.count ++ ' ' :: (e.more ++ ['\r'])) hn
  have h2 := split_append_sep ' ' e.count (e.more ++ ['\r']) hc
  simp only [GroupLine.text, List.append_assoc, List.cons_append] at h1 h2 ⊢
  rw [h1, h2]

/-- The loop assigns, line after line, the value of the count token to the name. -/
theorem groupsLoop_lines (es : List GroupLine) (m : GroupMap)
    (he : ∀ e ∈ es, ' ' ∉ e.name ∧ ' ' ∉ e.count) :
    groupsLoop (es.map (fun e => e.text ++ ['\r'])) m
      = es.foldl (fun acc e => mapSet acc e.name e.value) m := by
  induction es generalizing m with
  | nil => rfl
  | cons e es ih =>
    obtain ⟨h1, h2⟩ := he e (by simp)
    simp only [List.map_cons, groupsLoop, split_text e h1 h2, List.foldl_cons]
    exact ih _ (fun x hx => he x (by simp [hx]))

/-- The last line named `k` after one more line `e0` was appended. -/
theorem last_named_snoc (es : List GroupLine) (e0 : GroupLine) (k : List Char) (v : Nat) :
    (∃ pre e post, es ++ [e0] = pre ++ e :: post ∧ e.name = k ∧ (∀ x ∈ post, x.name ≠ k) ∧
        v = e.value) ↔
      (e0.name = k ∧ v = e0.value) ∨
      (e0.name ≠ k ∧ ∃ pre e post, es = pre ++ e :: post ∧ e.name = k ∧
        (∀ x ∈ post, x.name ≠ k) ∧ v = e.value) := by
  constructor
  · rintro ⟨pre, e, post, heq, hk, hpost, hv⟩
    rcases List.eq_nil_or_concat post with hp | ⟨L, b, hp⟩
    · subst hp
      have h2 : es ++ [e0] = pre ++ [e] := heq
      have h3 := List.append_inj' h2 rfl
      have h4 : e0 = e := by simpa using h3.2
      subst h4
      exact Or.inl ⟨hk, hv⟩
    · subst hp
      have h2 : es ++ [e0] = (pre ++ e :: L) ++ [b] := by simpa using heq
      have h3 := List.append_inj' h2 rfl
      have h4 : e0 = b := by simpa using h3.2
      subst h4
      refine Or.inr ⟨hpost e0 (by simp), pre, e, L, h3.1, hk, ?_, hv⟩
      intro x hx
      exact hpost x (by simp [hx])
  · rintro (⟨hk, hv⟩ | ⟨hne, pre, e, post, heq, hk, hpost, hv⟩)
    · exact ⟨es, e0, [], by simp, hk, by simp, hv⟩
    · refine ⟨pre, e, post ++ [e0], by simp [heq], hk, ?_, hv⟩
      intro x hx
      rcases List.mem_append.mp hx with hx | hx
      · exact hpost x hx
      · have : x = e0 := by simpa using hx
        subst this
        exact hne

/-- What the map holds after the loop ran over the lines `es`. -/
theorem fold_mapSet (es : List GroupLine) :
    KeySorted (es.foldl (fun acc e => mapSet acc e.name e.value) []) ∧
    ∀ k v, (k, v) ∈ es.foldl (fun acc e => mapSet acc e.name e.value) [] ↔
      ∃ pre e post, es = pre ++ e :: post ∧ e.name = k ∧ (∀ x ∈ post, x.name ≠ k) ∧
        v = e.value := by
  induction es using List.reverseRecOn with
  | nil => simp [KeySorted]
  | append_singleton es e0 ih =>
    obtain ⟨hs, hm⟩ := ih
    rw [List.foldl_append]
    simp only [List.foldl_cons, List.foldl_nil]
    refine ⟨mapSet_sorted _ _ _ hs, ?_⟩
    intro k v
    rw [mapSet_mem _ _ _ hs, last_named_snoc, hm]
    constructor
    · rintro (⟨h1, h2⟩ | ⟨h1, h2⟩)
      · exact Or.inl ⟨h1.symm, h2⟩
      · exact Or.inr ⟨fun hx => h1 hx.symm, h2⟩
    · rintro (⟨h1, h2⟩ | ⟨h1, h2⟩)
      · exact Or.inl ⟨h1.symm, h2⟩
      · exact Or.inr ⟨fun hx => h1 hx.symm, h2⟩

/-- The keys of the map are the names of the lines. -/
theorem fold_mapSet_keys (es : List GroupLine) (k : List Char) :
    k ∈ (es.foldl (fun acc e => mapSet acc e.name e.value) []).map Prod.fst ↔
      k ∈ es.map (·.name) := by
  have hm := (fold_mapSet es).2
  simp only [List.mem_map, Prod.exists, exists_and_right, exists_eq_right]
  constructor
  · rintro ⟨v, hv⟩
    obtain ⟨pre, e, post, heq, hk, _, _⟩ := (hm k v).mp hv
    exact ⟨e, by simp [heq], hk⟩
  · rintro ⟨e, he, hk⟩
    induction es using List.reverseRecOn with
    | nil => simp at he
    | append_singleton es e0 ih =>
      by_cases h0 : e0.name = k
      · exact ⟨e0.value, (hm k _).mpr ((last_named_snoc es e0 k _).mpr (Or.inl ⟨h0, rfl⟩))⟩
      · have he2 : e ∈ es := by
          rcases List.mem_append.mp he with h | h
          · exact h
          · have : e = e0 := by simpa using h
            subst this
            exact absurd hk h0
        obtain ⟨v, hv⟩ := ih (fold_mapSet es).2 he2
        obtain hx := ((fold_mapSet es).2 k v).mp hv
        exact ⟨v, (hm k v).mpr ((last_named_snoc es e0 k v).mpr (Or.inr ⟨h0, hx⟩))⟩

/-- The map has one entry per distinct name. -/
theorem fold_mapSet_length (es : List GroupLine) :
    (es.foldl (fun acc e => mapSet acc e.name e.value) []).length
      = ((es.map (·.name)).dedup).length := by
  have hnd := keySorted_nodup _ (fold_mapSet es).1
  have hperm : List.Perm ((es.foldl (fun acc e => mapSet acc e.name e.value) []).map Prod.fst)
      ((es.map (·.name)).dedup) :=
    (List.perm_ext_iff_of_nodup hnd (List.nodup_dedup _)).mpr
      (fun k => by rw [fold_mapSet_keys, List.mem_dedup])
  have := hperm.length_eq
  simpa using this

theorem dedup_length_lt (l : List (List Char)) (h : ¬ l.Nodup) : l.dedup.length < l.length := by
  rcases Nat.lt_or_ge l.dedup.length l.length with hlt | hge
  · exact hlt
  · have heq := (List.dedup_sublist l).eq_of_length_le hge
    exact absurd (heq ▸ List.nodup_dedup l) h

/-- Reading a body made of lines, none of them the single dot. -/
theorem getResponseData_of_lines (s : Socket) (ls : List (List Char)) (last : List Char)
    (chunks rest : List (List Char)) (ho : s.is_open = true)
    (hn : ∀ l ∈ ls ++ [last], '\n' ∉ l) (hd : ∀ l ∈ ls ++ [last], l ≠ ['.'])
    (hc : ∀ c ∈ chunks, c ≠ []) (hj : chunks.flatten = crlfLines ls ++ last ++ DOTCRLF)
    (hi : s.input = chunks ++ rest) :
    getResponseData s = (.ok (crlfLines ls ++ last), { s with input := rest }) :=
  getResponseData_firstAt s _ rest ho ⟨firstAt_lines ls last hn hd, chunks, hc, hj, hi⟩

/-- What `getGroupList` computes from a listing of one header line, the lines `es` and two
trailer lines, when the listing arrives in deliveries of its own after the status line. -/
theorem getGroupList_frame (s : Socket) (st hdr t1 t2 : List Char)
    (chunks rest : List (List Char)) (es : List GroupLine)
    (hA : Answers s st (chunks ++ rest)) (hst : isSuccess (statusOf (st ++ CRLF)))
    (hh : ∀ l ∈ [hdr, t1, t2], '\n' ∉ l ∧ l ≠ ['.'])
    (he : ∀ e ∈ es, ' ' ∉ e.name ∧ '\n' ∉ e.name ∧ ' ' ∉ e.count ∧ '\n' ∉ e.count ∧
      '\n' ∉ e.more)
    (hc : ∀ c ∈ chunks, c ≠ [])
    (hj : chunks.flatten = crlfLines (hdr :: (es.map GroupLine.text ++ [t1])) ++ t2 ++ DOTCRLF) :
    getGroupList s =
      (.ok (es.foldl (fun acc e => mapSet acc e.name e.value) []),
       { s with input := rest, output := s.output ++ ["list active".toList ++ CRLF] }) := by
  have ho := hA.1
  have hok := (throwNNTPError_ok_iff _).mpr (isSuccess_not_error hst)
  have hlines : ∀ l ∈ (hdr :: (es.map GroupLine.text ++ [t1])) ++ [t2],
      '\n' ∉ l ∧ l ≠ ['.'] := by
    intro l hl
    simp only [List.cons_append, List.append_assoc, List.mem_cons, List.mem_append,
      List.mem_map, List.mem_singleton, List.not_mem_nil, or_false] at hl
    rcases hl with hl | ⟨e, hein, hl⟩ | hl | hl
    · exact hh l (by simp [hl])
    · obtain ⟨h1, h2, h3, h4, h5⟩ := he e hein
      subst hl
      constructor
      · simp [GroupLine.text, h2, h4, h5]
      · simp [GroupLine.text]
        intro hx
        cases hname : e.name <;> simp [hname] at hx
    · exact hh l (by simp [hl])
    · exact hh l (by simp at hl ⊢; tauto)
  rw [getGroupList, send_answers _ true s _ _ hA]
  simp only [hok, if_true]
  rw [getResponseData_of_lines
    ({ s with
        input := chunks ++ rest,
        output := s.output ++ ["list active".toList ++ CRLF] } : Socket)
    (hdr :: (es.map GroupLine.text ++ [t1])) t2 chunks rest ho
    (fun l hl => (hlines l hl).1) (fun l hl => (hlines l hl).2) hc hj rfl]
  simp only []
  rw [split_crlfLines _ _ (fun l hl => (hlines l hl).1)]
  have hshape : (hdr :: (es.map GroupLine.text ++ [t1])).map (· ++ ['\r']) ++ [t2]
      = (hdr ++ ['\r']) :: (es.map (fun e => e.text ++ ['\r']) ++ [t1 ++ ['\r'], t2]) := by
    simp
  rw [hshape, eraseEnds_frame]
  simp only []
  rw [groupsLoop_lines es [] (fun e hein => ⟨(he e hein).1, (he e hein).2.2.1⟩)]

/-! ### Exchanges that raise, exchanges that pass -/

/-- An enforced exchange answered by a code with a case in `throwNNTPError` raises. -/
theorem send_raises (p_cmd : List Char) (s : Socket) (l : List Char) (rest : List (List Char)) (e : Fault)
    (h : Answers s l rest) (he : throwNNTPError (statusOf (l ++ CRLF)) = .error e) :
    send p_cmd true s =
      (.error e, { s with input := rest, output := s.output ++ [p_cmd ++ CRLF] }) := by
  rw [send_answers p_cmd true s l rest h]
  simp only [if_true, he]

/-- An enforced exchange answered by a code without a case in `throwNNTPError` passes. -/
theorem send_passes (p_cmd : List Char) (s : Socket) (l : List Char) (rest : List (List Char))
    (h : Answers s l rest) (hc : statusOf (l ++ CRLF) ∉ errorCodes) :
    send p_cmd true s =
      (.ok (statusOf (l ++ CRLF)),
       { s with input := rest, output := s.output ++ [p_cmd ++ CRLF] }) := by
  rw [send_answers p_cmd true s l rest h]
  simp only [if_true, (throwNNTPError_ok_iff _).mpr hc]

/-- Whatever the server does, `send` on a usable connection writes its one command. -/
theorem send_output (p_cmd : List Char) (p_throw : Bool) (s : Socket)
    (ho : s.is_open = true) (ha : s.alive = true) :
    (send p_cmd p_throw s).2.output = s.output ++ [p_cmd ++ CRLF] ∧
    (send p_cmd p_throw s).2.is_open = true ∧ (send p_cmd p_throw s).2.alive = true := by
  simp only [send, write, read_until, ho, ha, Bool.and_self, if_true]
  cases readLoop CRLF [] s.input with
  | none => exact ⟨rfl, rfl, rfl⟩
  | some pr =>
    obtain ⟨pre, rest⟩ := pr
    simp only []
    cases p_throw with
    | false => exact ⟨rfl, rfl, rfl⟩
    | true =>
      simp only [if_true]
      cases throwNNTPError (statusOf pre) <;> exact ⟨rfl, rfl, rfl⟩

theorem read_until_output (d : List Char) (s : Socket) :
    (read_until d s).2.output = s.output := by
  unfold read_until
  cases s.is_open with
  | false => rfl
  | true =>
    simp only [if_true]
    cases readLoop d [] s.input with
    | none => rfl
    | some pr => rfl

/-- Reading a body writes nothing. -/
theorem getResponseData_output (s : Socket) :
    (getResponseData s).2.output = s.output := by
  have h := read_until_output DOTCRLF s
  unfold getResponseData
  generalize read_until DOTCRLF s = r at h
  obtain ⟨o, s1⟩ := r
  cases o with
  | error e => exact h
  | ok l_data =>
    simp only []
    split <;> exact h

/-- The overload `getArticle(messageId, mode)` as one exchange and one body read. -/
theorem getArticleById_eq (id : List Char) (m : content) (s : Socket) :
    getArticleById id m s =
      match send (l_cmd m ++ " ".toList ++ id) true s with
      | (.error e, s1) => (.error e, s1)
      | (.ok _, s1) => getResponseData s1 := by
  cases m <;> rfl

/-- The overload `getArticle(mode)` as one exchange and one body read. -/
theorem getArticle_eq (m : content) (s : Socket) :
    getArticle m s =
      match send (l_cmd m) true s with
      | (.error e, s1) => (.error e, s1)
      | (.ok _, s1) => getResponseData s1 := by
  cases m <;> rfl

/-- The overload `getArticle(group, articleId, mode)` as two exchanges and one body read. -/
theorem getArticleIn_eq (p_group id : List Char) (m : content) (s : Socket) :
    getArticleIn p_group id m s =
      match send ("group ".toList ++ p_group) true s with
      | (.error e, s1) => (.error e, s1)
      | (.ok _, s1) =>
        match send (l_cmd m ++ " ".toList ++ id) true s1 with
        | (.error e, s2) => (.error e, s2)
        | (.ok _, s2) => getResponseData s2 := by
  cases m <;> rfl

/-- One enforced exchange followed by a body read writes exactly the one command. -/
theorem fetch_output (p_cmd : List Char) (s : Socket) (ho : s.is_open = true)
    (ha : s.alive = true) :
    (match send p_cmd true s with
      | (.error e, s1) => ((.error e : Except Fault (List Char)), s1)
      | (.ok _, s1) => getResponseData s1).2.output = s.output ++ [p_cmd ++ CRLF] := by
  have h := (send_output p_cmd true s ho ha).1
  generalize send p_cmd true s = r at h
  obtain ⟨o, s1⟩ := r
  cases o with
  | error e => exact h
  | ok c =>
    simp only []
    rw [getResponseData_output]
    exact h

/-- C14: on a usable connection, `getArticle(messageId, mode)` writes exactly one command, the
command word of the mode followed by a blank and the id, and no group command;
`getArticle(mode)` writes the bare command word; `getArticle(group, articleId, mode)` writes
the group command first and, when the group selection raised nothing, exactly one fetch command
of the same form after it (when the selection raised, that error leaves the call and nothing
more is written). The command word is article for full, body for body and head for header. -/
theorem getArticle_commands (p_group id : List Char) (s : Socket)
    (ho : s.is_open = true) (ha : s.alive = true) :
    (∀ m, (getArticleById id m s).2.output = s.output ++ [l_cmd m ++ " ".toList ++ id ++ CRLF]) ∧
    (∀ m, (getArticle m s).2.output = s.output ++ [l_cmd m ++ CRLF]) ∧
    (∀ m l rest, Answers s l rest → statusOf (l ++ CRLF) ∉ errorCodes →
      (getArticleIn p_group id m s).2.output =
        s.output ++ ["group ".toList ++ p_group ++ CRLF, l_cmd m ++ " ".toList ++ id ++ CRLF]) ∧
    (∀ m l rest e, Answers s l rest → throwNNTPError (statusOf (l ++ CRLF)) = .error e →
      (getArticleIn p_group id m s).1 = .error e ∧
      (getArticleIn p_group id m s).2.output = s.output ++ ["group ".toList ++ p_group ++ CRLF]) ∧
    (l_cmd .full = "article".toList ∧ l_cmd .body = "body".toList ∧
      l_cmd .header = "head".toList) := by
  refine ⟨?_, ?_, ?_, ?_, rfl, rfl, rfl⟩
  · intro m
    rw [getArticleById_eq]
    exact fetch_output _ s ho ha
  · intro m
    rw [getArticle_eq]
    exact fetch_output _ s ho ha
  · intro m l rest hA hc
    rw [getArticleIn_eq, send_passes _ s l rest hA hc]
    simp only []
    have := fetch_output (l_cmd m ++ " ".toList ++ id)
      ({ s with input := rest, output := s.output ++ ["group ".toList ++ p_group ++ CRLF] } : Socket)
      ho ha
    simpa using this
  · intro m l rest e hA he
    rw [getArticleIn_eq, send_raises _ s l rest e hA he]
    exact ⟨rfl, rfl⟩

/-- C14, instance: a body fetch by group and article id writes the group command and then the
body command. -/
theorem getArticle_commands_witness :
    Answers
      ⟨true, true, ["211 3 7 9 misc.test\r\n".toList, "222 7 <a@example> body\r\n".toList,
        "text\r\n.\r\n".toList], []⟩
      "211 3 7 9 misc.test".toList
      ["222 7 <a@example> body\r\n".toList, "text\r\n.\r\n".toList] ∧
    statusOf ("211 3 7 9 misc.test".toList ++ CRLF) ∉ errorCodes ∧
    (getArticleIn "misc.test".toList "7".toList .body
      ⟨true, true, ["211 3 7 9 misc.test\r\n".toList, "222 7 <a@example> body\r\n".toList,
        "text\r\n.\r\n".toList], []⟩).2.output
      = [] ++ ["group ".toList ++ "misc.test".toList ++ CRLF,
          l_cmd .body ++ " ".toList ++ "7".toList ++ CRLF] :=
  ⟨by decide, by decide,
   (getArticle_commands "misc.test".toList "7".toList
      ⟨true, true, ["211 3 7 9 misc.test\r\n".toList, "222 7 <a@example> body\r\n".toList,
        "text\r\n.\r\n".toList], []⟩
      rfl rfl).2.2.1 .body "211 3 7 9 misc.test".toList
      ["222 7 <a@example> body\r\n".toList, "text\r\n.\r\n".toList] (by decide) (by decide)⟩

/-! ### Loops over id lists -/

/-- The loop over message ids runs the same exchanges as the loop over article ids. -/
theorem getArticlesLoopById_eq (m : content) (ids l_data : List (List Char)) (s : Socket) :
    getArticlesLoopById m ids l_data s = getArticlesLoop (l_cmd m) ids l_data s := by
  induction ids generalizing l_data s with
  | nil => rfl
  | cons id ids ih =>
    simp only [getArticlesLoopById, getArticlesLoop, getArticleById_eq]
    cases send (l_cmd m ++ " ".toList ++ id) true s with
    | mk o s1 =>
      cases o with
      | error e => rfl
      | ok c =>
        simp only []
        cases getResponseData s1 with
        | mk o2 s2 =>
          cases o2 with
          | error e => rfl
          | ok payload => exact ih _ _

/-- The loop over a list of ids followed by more ids: the first part runs, then the rest. -/
theorem getArticlesLoop_append (cmd : List Char) (a b l_data : List (List Char)) (s : Socket) :
    getArticlesLoop cmd (a ++ b) l_data s =
      match getArticlesLoop cmd a l_data s with
      | (.error e, s1) => (.error e, s1)
      | (.ok l_data1, s1) => getArticlesLoop cmd b l_data1 s1 := by
  induction a generalizing l_data s with
  | nil => rfl
  | cons id a ih =>
    simp only [List.cons_append, getArticlesLoop]
    cases send (cmd ++ " ".toList ++ id) true s with
    | mk o s1 =>
      cases o with
      | error e => rfl
      | ok c =>
        simp only []
        cases getResponseData s1 with
        | mk o2 s2 =>
          cases o2 with
          | error e => rfl
          | ok payload => exact ih _ _

/-- The loop meets a fetch answered by an error code: that error is raised, the failed fetch is
the last command written and only its status line is read. -/
theorem getArticlesLoop_raises (cmd bad : List Char) (more l_data : List (List Char))
    (s : Socket) (l : List Char) (rest : List (List Char)) (e : Fault)
    (h : Answers s l rest) (he : throwNNTPError (statusOf (l ++ CRLF)) = .error e) :
    getArticlesLoop cmd (bad :: more) l_data s =
      (.error e,
       { s with input := rest, output := s.output ++ [cmd ++ " ".toList ++ bad ++ CRLF] }) := by
  rw [getArticlesLoop, send_raises _ s l rest e h he]

/-- Whatever the server does, `send` writes its one command, or nothing at all when the
connection is unusable, and then it raises. -/
theorem send_output_cases (p_cmd : List Char) (p_throw : Bool) (s : Socket) :
    (send p_cmd p_throw s).2.output = s.output ++ [p_cmd ++ CRLF] ∨
    ((send p_cmd p_throw s).2.output = s.output ∧ ∃ e, (send p_cmd p_throw s).1 = .error e) := by
  cases ho : s.is_open with
  | false =>
    right
    simp [send, write, ho]
  | true =>
    cases ha : s.alive with
    | false =>
      right
      simp [send, write, ho, ha]
    | true => exact Or.inl (send_output p_cmd p_throw s ho ha).1

/-- An exchange that returns normally has written its command. -/
theorem send_ok_output (p_cmd : List Char) (p_throw : Bool) (s s1 : Socket) (c : Nat)
    (h : send p_cmd p_throw s = (.ok c, s1)) : s1.output = s.output ++ [p_cmd ++ CRLF] := by
  have hs := send_output_cases p_cmd p_throw s
  rw [h] at hs
  rcases hs with hs | ⟨_, e, he⟩
  · exact hs
  · cases he

/-- A loop that returns normally has added one body per id and written one fetch command per
id, in input order. -/
theorem getArticlesLoop_ok (cmd : List Char) (ids l_data l_data1 : List (List Char))
    (s s1 : Socket) (h : getArticlesLoop cmd ids l_data s = (.ok l_data1, s1)) :
    l_data1.length = l_data.length + ids.length ∧
    s1.output = s.output ++ ids.map (fun id => cmd ++ " ".toList ++ id ++ CRLF) := by
  induction ids generalizing l_data s with
  | nil =>
    simp only [getArticlesLoop, Prod.mk.injEq, Except.ok.injEq] at h
    obtain ⟨h1, h2⟩ := h
    subst h1 h2
    simp
  | cons id ids ih =>
    simp only [getArticlesLoop] at h
    cases hsend : send (cmd ++ " ".toList ++ id) true s with
    | mk o t =>
      rw [hsend] at h
      cases o with
      | error e => simp at h
      | ok c =>
        have h1 := send_ok_output _ _ _ _ _ hsend
        simp only [] at h
        have hg := getResponseData_output t
        cases hget : getResponseData t with
        | mk o2 t2 =>
          rw [hget] at h hg
          cases o2 with
          | error e => simp at h
          | ok payload =>
            simp only [] at h
            obtain ⟨ha, hb⟩ := ih (l_data ++ [payload]) t2 h
            have hg2 : t2.output = t.output := hg
            refine ⟨by rw [ha]; simp only [List.length_append, List.length_cons,
              List.length_nil]; omega, ?_⟩
            rw [hb, hg2, h1]
            simp

/-- The list overload by group over a list of ids followed by more ids. -/
theorem getArticlesIn_append (p_group : List Char) (a b : List (List Char)) (m : content)
    (s : Socket) :
    getArticlesIn p_group (a ++ b) m s =
      match getArticlesIn p_group a m s with
      | (.error e, s1) => (.error e, s1)
      | (.ok l_data, s1) => getArticlesLoop (l_cmd m) b l_data s1 := by
  simp only [getArticlesIn]
  cases send ("group ".toList ++ p_group) true s with
  | mk o s1 =>
    cases o with
    | error e => rfl
    | ok c =>
      simp only []
      rw [getArticlesLoop_append]

/-- The list overload by group, when it returns normally, has written the group command and
one fetch command per id, and returns one body per id. -/
theorem getArticlesIn_ok (p_group : List Char) (ids l_data : List (List Char)) (m : content)
    (s s1 : Socket) (h : getArticlesIn p_group ids m s = (.ok l_data, s1)) :
    l_data.length = ids.length ∧
    s1.output = s.output ++ ["group ".toList ++ p_group ++ CRLF] ++
      ids.map (fun id => l_cmd m ++ " ".toList ++ id ++ CRLF) := by
  simp only [getArticlesIn] at h
  cases hsend : send ("group ".toList ++ p_group) true s with
  | mk o t =>
    rw [hsend] at h
    cases o with
    | error e => simp at h
    | ok c =>
      have h1 := send_ok_output _ _ _ _ _ hsend
      simp only [] at h
      obtain ⟨ha, hb⟩ := getArticlesLoop_ok _ _ _ _ _ _ h
      exact ⟨by simpa using ha, by rw [hb, h1]⟩

/-- Every operation raises the error of the code that answers its first command; the probes
and `nextArticle` do so unless the code is the one they read as a boolean. -/
theorem first_exchange_raises (s : Socket) (l : List Char) (rest : List (List Char)) (e : Fault)
    (h : Answers s l rest) (he : throwNNTPError (statusOf (l ++ CRLF)) = .error e) :
    (∀ g, (setGroup g s).1 = .error e) ∧
    (∀ m, (getArticle m s).1 = .error e) ∧
    (∀ id m, (getArticleById id m s).1 = .error e) ∧
    (∀ g id m, (getArticleIn g id m s).1 = .error e) ∧
    (∀ g ids m, (getArticlesIn g ids m s).1 = .error e) ∧
    (∀ id ids m, (getArticles (id :: ids) m s).1 = .error e) ∧
    (getGroupList s).1 = .error e ∧
    (∀ g, (getArticleIDs g s).1 = .error e) ∧
    (∀ g id, (existArticleIn g id s).1 = .error e) ∧
    (statusOf (l ++ CRLF) ≠ 430 → ∀ id, (existArticle id s).1 = .error e) ∧
    (statusOf (l ++ CRLF) ≠ 421 → (nextArticle s).1 = .error e) := by
  have h223 : statusOf (l ++ CRLF) ≠ 223 := by
    intro hx
    exact absurd ((throwNNTPError_error_iff _).mp ⟨e, he⟩) (hx ▸ (by decide))
  refine ⟨?_, ?_, ?_, ?_, ?_, ?_, ?_, ?_, ?_, ?_, ?_⟩
  · intro g
    rw [setGroup, send_raises _ s l rest e h he]
  · intro m
    rw [getArticle_eq, send_raises _ s l rest e h he]
  · intro id m
    rw [getArticleById_eq, send_raises _ s l rest e h he]
  · intro g id m
    rw [getArticleIn_eq, send_raises _ s l rest e h he]
  · intro g ids m
    rw [getArticlesIn, send_raises _ s l rest e h he]
  · intro id ids m
    rw [getArticles, getArticlesLoopById_eq, getArticlesLoop, send_raises _ s l rest e h he]
  · rw [getGroupList, send_raises _ s l rest e h he]
  · intro g
    rw [getArticleIDs, send_raises _ s l rest e h he]
  · intro g id
    rw [existArticleIn, send_raises _ s l rest e h he]
  · intro h430 id
    rw [existArticle_answers id s l rest h]
    simp only [h223, h430, if_false, he]
  · intro h421
    rw [nextArticle_answers s l rest h]
    simp only [h421, if_false, he]

/-- The two operations that select a group first raise the error of the code that answers
their second command. -/
theorem second_exchange_raises (s : Socket) (l1 l2 : List Char) (rest1 rest : List (List Char))
    (e : Fault) (h1 : Answers s l1 rest1) (h2 : StatusLine rest1 l2 rest)
    (hg : statusOf (l1 ++ CRLF) ∉ errorCodes)
    (he : throwNNTPError (statusOf (l2 ++ CRLF)) = .error e) :
    (∀ g id m, (getArticleIn g id m s).1 = .error e) ∧
    (statusOf (l2 ++ CRLF) ≠ 423 → ∀ g id, (existArticleIn g id s).1 = .error e) := by
  have h223 : statusOf (l2 ++ CRLF) ≠ 223 := by
    intro hx
    exact absurd ((throwNNTPError_error_iff _).mp ⟨e, he⟩) (hx ▸ (by decide))
  constructor
  · intro g id m
    rw [getArticleIn_eq, send_passes _ s l1 _ h1 hg]
    simp only []
    rw [send_raises _
      ({ s with
          input := rest1,
          output := s.output ++ ["group ".toList ++ g ++ CRLF] } : Socket)
      l2 rest e ⟨h1.1, h1.2.1, h2⟩ he]
  · intro h423 g id
    rw [existArticleIn_answers g id s l1 l2 rest1 rest h1 h2 hg]
    simp only [h223, h423, if_false, he]

/-- The list overload by group: after the group command and the fetches for the ids `pre` have
gone through, the next fetch is answered by an error code. -/
theorem getArticlesIn_raises (p_group : List Char) (p_content : content) (s s1 : Socket)
    (pre l_data : List (List Char)) (bad : List Char) (more : List (List Char))
    (l : List Char) (rest : List (List Char)) (e : Fault)
    (hpre : getArticlesIn p_group pre p_content s = (.ok l_data, s1))
    (h : Answers s1 l rest) (he : throwNNTPError (statusOf (l ++ CRLF)) = .error e) :
    getArticlesIn p_group (pre ++ bad :: more) p_content s =
      (.error e,
       { s1 with
          input := rest,
          output := s1.output ++ [l_cmd p_content ++ " ".toList ++ bad ++ CRLF] }) := by
  rw [getArticlesIn_append, hpre]
  exact getArticlesLoop_raises _ bad more l_data s1 l rest e h he

/-- The list overload by message id: after the fetches for the ids `pre` have gone through,
the next fetch is answered by an error code. -/
theorem getArticles_raises (p_content : content) (s s1 : Socket)
    (pre l_data : List (List Char)) (bad : List Char) (more : List (List Char))
    (l : List Char) (rest : List (List Char)) (e : Fault)
    (hpre : getArticles pre p_content s = (.ok l_data, s1))
    (h : Answers s1 l rest) (he : throwNNTPError (statusOf (l ++ CRLF)) = .error e) :
    getArticles (pre ++ bad :: more) p_content s =
      (.error e,
       { s1 with
          input := rest,
          output := s1.output ++ [l_cmd p_content ++ " ".toList ++ bad ++ CRLF] }) := by
  rw [getArticles, getArticlesLoopById_eq] at hpre ⊢
  rw [getArticlesLoop_append, hpre]
  exact getArticlesLoop_raises _ bad more l_data s1 l rest e h he

/-- C18: for every group, list of article ids and content mode, once the group command and the
fetches for the ids before the k-th have gone through (in whatever deliveries their replies
came), if the server answers the k-th fetch with a status line whose code `throwNNTPError` has
a case for, `getArticle(group, ids, mode)` raises the error of that code: no list is returned,
the deliveries after the failed status line stay unread (no body read), and the commands
written are the group command and the fetches up to the k-th, none for the ids after it. -/
theorem getArticlesIn_fetch_error (p_group : List Char) (p_content : content) (s s1 : Socket)
    (pre l_data : List (List Char)) (bad : List Char) (more : List (List Char))
    (l : List Char) (rest : List (List Char))
    (hpre : getArticlesIn p_group pre p_content s = (.ok l_data, s1))
    (h : Answers s1 l rest) (hc : statusOf (l ++ CRLF) ∈ errorCodes) :
    (∃ e, throwNNTPError (statusOf (l ++ CRLF)) = .error e ∧
      (getArticlesIn p_group (pre ++ bad :: more) p_content s).1 = .error e) ∧
    (getArticlesIn p_group (pre ++ bad :: more) p_content s).2.input = rest ∧
    (getArticlesIn p_group (pre ++ bad :: more) p_content s).2.output =
      s.output ++ ["group ".toList ++ p_group ++ CRLF] ++
        pre.map (fun id => l_cmd p_content ++ " ".toList ++ id ++ CRLF) ++
        [l_cmd p_content ++ " ".toList ++ bad ++ CRLF] := by
  obtain ⟨e, he⟩ := (throwNNTPError_error_iff _).mpr hc
  rw [getArticlesIn_raises p_group p_content s s1 pre l_data bad more l rest e hpre h he]
  refine ⟨⟨e, he, rfl⟩, rfl, ?_⟩
  show s1.output ++ _ = _
  rw [(getArticlesIn_ok p_group pre l_data p_content s s1 hpre).2]

/-- C18, instance: two fetches go through, the second body arriving in three deliveries; the
third of four fetches is answered 423: the error of 423 is raised, the fourth id is never asked
for and the delivery after the status line stays unread. -/
theorem getArticlesIn_fetch_error_witness :
    getArticlesIn "misc.test".toList ["7".toList, "8".toList] .body
        ⟨true, true,
          ["211 3 7 9 misc.test\r\n".toList, "222 7 <a@example> body follows\r\n".toList,
            "short\r\n.\r\n".toList, "222 8 <b@example> body ".toList, "follows\r\n".toList,
            "two lines,\r".toList, "\n..the second\r\n.".toList, "\r\n".toList,
            "423 no such article number\r\n".toList, "unread".toList], []⟩
      = (.ok ["short".toList, "two lines,\r\n..the second".toList],
         ⟨true, true, ["423 no such article number\r\n".toList, "unread".toList],
          ["group misc.test\r\n".toList, "body 7\r\n".toList, "body 8\r\n".toList]⟩) ∧
    Answers
      ⟨true, true, ["423 no such article number\r\n".toList, "unread".toList],
        ["group misc.test\r\n".toList, "body 7\r\n".toList, "body 8\r\n".toList]⟩
      "423 no such article number".toList ["unread".toList] ∧
    statusOf ("423 no such article number".toList ++ CRLF) ∈ errorCodes ∧
    (getArticlesIn "misc.test".toList
        (["7".toList, "8".toList] ++ "9".toList :: ["10".toList]) .body
        ⟨true, true,
          ["211 3 7 9 misc.test\r\n".toList, "222 7 <a@example> body follows\r\n".toList,
            "short\r\n.\r\n".toList, "222 8 <b@example> body ".toList, "follows\r\n".toList,
            "two lines,\r".toList, "\n..the second\r\n.".toList, "\r\n".toList,
            "423 no such article number\r\n".toList, "unread".toList], []⟩).2.output
      = [] ++ ["group ".toList ++ "misc.test".toList ++ CRLF] ++
          ["7".toList, "8".toList].map (fun id => l_cmd .body ++ " ".toList ++ id ++ CRLF) ++
          [l_cmd .body ++ " ".toList ++ "9".toList ++ CRLF] :=
  ⟨by decide, by decide, by decide,
   (getArticlesIn_fetch_error "misc.test".toList .body
      ⟨true, true,
        ["211 3 7 9 misc.test\r\n".toList, "222 7 <a@example> body follows\r\n".toList,
          "short\r\n.\r\n".toList, "222 8 <b@example> body ".toList, "follows\r\n".toList,
          "two lines,\r".toList, "\n..the second\r\n.".toList, "\r\n".toList,
          "423 no such article number\r\n".toList, "unread".toList], []⟩
      ⟨true, true, ["423 no such article number\r\n".toList, "unread".toList],
        ["group misc.test\r\n".toList, "body 7\r\n".toList, "body 8\r\n".toList]⟩
      ["7".toList, "8".toList] ["short".toList, "two lines,\r\n..the second".toList]
      "9".toList ["10".toList] "423 no such article number".toList ["unread".toList]
      (by decide) (by decide) (by decide)).2.2⟩

/-- C11: when the server answers 411 to the group command, `setGroup` raises the error of code
411 (no such group); and when the server answers 412 to an operation that needs a selected
group, that operation raises the error of code 412 (no newsgroup has been selected): this holds
for `getArticle` on the current article, for `nextArticle`, for a stat or a fetch by id sent
without a group command, and for the stat and the fetch that follow the group command of
`existArticle(group, id)` and `getArticle(group, id, mode)`. -/
theorem group_faults (s : Socket) (l : List Char) (rest : List (List Char))
    (h : Answers s l rest)
    (s2 : Socket) (l1 l2 : List Char) (rest1 rest2 : List (List Char))
    (h1 : Answers s2 l1 rest1) (h2 : StatusLine rest1 l2 rest2)
    (hg : statusOf (l1 ++ CRLF) ∉ errorCodes) :
    (statusOf (l ++ CRLF) = 411 →
      ∀ g, (setGroup g s).1 = .error (.parameter "no such group")) ∧
    (statusOf (l ++ CRLF) = 412 →
      (∀ m, (getArticle m s).1 = .error (.parameter "no newsgroup has been selected")) ∧
      (nextArticle s).1 = .error (.parameter "no newsgroup has been selected") ∧
      (∀ id, (existArticle id s).1 = .error (.parameter "no newsgroup has been selected")) ∧
      (∀ id m, (getArticleById id m s).1
        = .error (.parameter "no newsgroup has been selected"))) ∧
    (statusOf (l2 ++ CRLF) = 412 →
      (∀ g id, (existArticleIn g id s2).1
        = .error (.parameter "no newsgroup has been selected")) ∧
      (∀ g id m, (getArticleIn g id m s2).1
        = .error (.parameter "no newsgroup has been selected"))) := by
  refine ⟨?_, ?_, ?_⟩
  · intro hc
    have he : throwNNTPError (statusOf (l ++ CRLF)) = .error (.parameter "no such group") := by
      rw [hc]; rfl
    exact (first_exchange_raises s l rest _ h he).1
  · intro hc
    have he : throwNNTPError (statusOf (l ++ CRLF))
        = .error (.parameter "no newsgroup has been selected") := by
      rw [hc]; rfl
    have hall := first_exchange_raises s l rest _ h he
    exact ⟨hall.2.1, hall.2.2.2.2.2.2.2.2.2.2 (by rw [hc]; decide),
      hall.2.2.2.2.2.2.2.2.2.1 (by rw [hc]; decide), hall.2.2.1⟩
  · intro hc
    have he : throwNNTPError (statusOf (l2 ++ CRLF))
        = .error (.parameter "no newsgroup has been selected") := by
      rw [hc]; rfl
    have hall := second_exchange_raises s2 l1 l2 rest1 rest2 _ h1 h2 hg he
    exact ⟨hall.2 (by rw [hc]; decide), hall.1⟩

/-- C11, instance: 411 to the group command, and 412 to the stat that follows a confirmed
group command. -/
theorem group_faults_witness :
    Answers ⟨true, true, ["411 no such group\r\n".toList], []⟩ "411 no such group".toList [] ∧
    Answers
      ⟨true, true, ["211 0 0 0 misc.test\r\n".toList, "412 no newsgroup selected\r\n".toList],
        []⟩
      "211 0 0 0 misc.test".toList ["412 no newsgroup selected\r\n".toList] ∧
    StatusLine ["412 no newsgroup selected\r\n".toList] "412 no newsgroup selected".toList
      [] ∧
    statusOf ("211 0 0 0 misc.test".toList ++ CRLF) ∉ errorCodes ∧
    statusOf ("411 no such group".toList ++ CRLF) = 411 ∧
    (setGroup "misc.nowhere".toList ⟨true, true, ["411 no such group\r\n".toList], []⟩).1
      = .error (.parameter "no such group") :=
  ⟨by decide, by decide, by decide, by decide, by decide,
   (group_faults ⟨true, true, ["411 no such group\r\n".toList], []⟩ "411 no such group".toList []
      (by decide)
      ⟨true, true, ["211 0 0 0 misc.test\r\n".toList, "412 no newsgroup selected\r\n".toList], []⟩
      "211 0 0 0 misc.test".toList "412 no newsgroup selected".toList
      ["412 no newsgroup selected\r\n".toList] []
      (by decide) (by decide) (by decide)).1 (by decide) "misc.nowhere".toList⟩

theorem statusOf_cast_fails (x : List Char) (h : lexical_cast_uint (x.take 3) = none) :
    throwNNTPError (statusOf x) = .error (.parameter "error while reading socket data") := by
  have hz : statusOf x = 0 := by simp [statusOf, h]
  rw [hz]
  rfl

/-- C13 (as stated, refuted): the status line 200abc def has a leading token, 200abc, that is
not an integer, yet `send` casts its first three characters and reads the code 200, so
`setGroup` returns normally and `nextArticle` returns true instead of raising. -/
theorem leading_token_not_cast :
    split ' ' "200abc def".toList = ["200abc".toList, "def".toList] ∧
    lexical_cast_uint "200abc".toList = none ∧
    statusOf "200abc def\r\n".toList = 200 ∧
    (setGroup "misc.test".toList ⟨true, true, ["200abc def\r\n".toList], []⟩).1 = .ok () ∧
    (nextArticle ⟨true, true, ["200abc def\r\n".toList], []⟩).1 = .ok true := by
  decide

/-- C13 (amended): for every public operation, if in any of its exchanges the first three
characters of the status line, the ones `send` casts to the status code, do not cast to a
number, the code is 0 and the operation raises the error while reading socket data; so do the
operations that send with enforcement off (`nextArticle`, both `existArticle`). The exchanges
are: the first command of every operation (socket `s`), the command after a confirmed group
command (socket `s2`), and the fetch of a list overload after the exchanges for the ids before
it have gone through (sockets `s3` for the overload by group, `s4` for the one by message id). -/
theorem malformed_status_raises
    (s : Socket) (l : List Char) (rest : List (List Char)) (h : Answers s l rest)
    (hbad : lexical_cast_uint ((l ++ CRLF).take 3) = none)
    (s2 : Socket) (l1 l2 : List Char) (rest1 rest2 : List (List Char))
    (h1 : Answers s2 l1 rest1) (h2 : StatusLine rest1 l2 rest2)
    (hg : statusOf (l1 ++ CRLF) ∉ errorCodes)
    (hbad2 : lexical_cast_uint ((l2 ++ CRLF).take 3) = none)
    (s3 t3 : Socket) (grp3 : List Char) (pre3 d3 : List (List Char)) (m3 : content)
    (l3 : List Char) (rest3 : List (List Char))
    (hpre3 : getArticlesIn grp3 pre3 m3 s3 = (.ok d3, t3)) (h3 : Answers t3 l3 rest3)
    (hbad3 : lexical_cast_uint ((l3 ++ CRLF).take 3) = none)
    (s4 t4 : Socket) (pre4 d4 : List (List Char)) (m4 : content)
    (l4 : List Char) (rest4 : List (List Char))
    (hpre4 : getArticles pre4 m4 s4 = (.ok d4, t4)) (h4 : Answers t4 l4 rest4)
    (hbad4 : lexical_cast_uint ((l4 ++ CRLF).take 3) = none) :
    (statusOf (l ++ CRLF) = 0 ∧ statusOf (l2 ++ CRLF) = 0 ∧ statusOf (l3 ++ CRLF) = 0 ∧
      statusOf (l4 ++ CRLF) = 0) ∧
    ((∀ grp, (setGroup grp s).1 = .error (.parameter "error while reading socket data")) ∧
     (∀ m, (getArticle m s).1 = .error (.parameter "error while reading socket data")) ∧
     (∀ id m, (getArticleById id m s).1
        = .error (.parameter "error while reading socket data")) ∧
     (∀ grp id m, (getArticleIn grp id m s).1
        = .error (.parameter "error while reading socket data")) ∧
     (∀ grp ids m, (getArticlesIn grp ids m s).1
        = .error (.parameter "error while reading socket data")) ∧
     (∀ id ids m, (getArticles (id :: ids) m s).1
        = .error (.parameter "error while reading socket data")) ∧
     (getGroupList s).1 = .error (.parameter "error while reading socket data") ∧
     (∀ grp, (getArticleIDs grp s).1 = .error (.parameter "error while reading socket data")) ∧
     (∀ grp id, (existArticleIn grp id s).1
        = .error (.parameter "error while reading socket data")) ∧
     (∀ id, (existArticle id s).1 = .error (.parameter "error while reading socket data")) ∧
     (nextArticle s).1 = .error (.parameter "error while reading socket data")) ∧
    ((∀ grp id m, (getArticleIn grp id m s2).1
        = .error (.parameter "error while reading socket data")) ∧
     (∀ grp id, (existArticleIn grp id s2).1
        = .error (.parameter "error while reading socket data"))) ∧
    ((∀ bad more, (getArticlesIn grp3 (pre3 ++ bad :: more) m3 s3).1
        = .error (.parameter "error while reading socket data")) ∧
     (∀ bad more, (getArticles (pre4 ++ bad :: more) m4 s4).1
        = .error (.parameter "error while reading socket data"))) := by
  have he := statusOf_cast_fails _ hbad
  have he2 := statusOf_cast_fails _ hbad2
  have he3 := statusOf_cast_fails _ hbad3
  have he4 := statusOf_cast_fails _ hbad4
  have z : statusOf (l ++ CRLF) = 0 := by simp [statusOf, hbad]
  have z2 : statusOf (l2 ++ CRLF) = 0 := by simp [statusOf, hbad2]
  have z3 : statusOf (l3 ++ CRLF) = 0 := by simp [statusOf, hbad3]
  have z4 : statusOf (l4 ++ CRLF) = 0 := by simp [statusOf, hbad4]
  have hall := first_exchange_raises s l rest _ h he
  have hsec := second_exchange_raises s2 l1 l2 rest1 rest2 _ h1 h2 hg he2
  refine ⟨⟨z, z2, z3, z4⟩, ⟨hall.1, hall.2.1, hall.2.2.1, hall.2.2.2.1, hall.2.2.2.2.1,
    hall.2.2.2.2.2.1, hall.2.2.2.2.2.2.1, hall.2.2.2.2.2.2.2.1, hall.2.2.2.2.2.2.2.2.1,
    hall.2.2.2.2.2.2.2.2.2.1 (by rw [z]; decide),
    hall.2.2.2.2.2.2.2.2.2.2 (by rw [z]; decide)⟩,
    ⟨hsec.1, hsec.2 (by rw [z2]; decide)⟩, ?_, ?_⟩
  · intro bad more
    rw [getArticlesIn_raises grp3 m3 s3 t3 pre3 d3 bad more l3 rest3 _ hpre3 h3 he3]
  · intro bad more
    rw [getArticles_raises m4 s4 t4 pre4 d4 bad more l4 rest4 _ hpre4 h4 he4]

/-- C13 (amended), instance: a status line of plain text in each of the four positions. -/
theorem malformed_status_raises_witness :
    Answers ⟨true, true, ["garbage here\r\n".toList], []⟩ "garbage here".toList [] ∧
    lexical_cast_uint (("garbage here".toList ++ CRLF).take 3) = none ∧
    Answers ⟨true, true, ["211 0 0 0 misc.test\r\n".toList, "garbage here\r\n".toList], []⟩
      "211 0 0 0 misc.test".toList ["garbage here\r\n".toList] ∧
    StatusLine ["garbage here\r\n".toList] "garbage here".toList [] ∧
    statusOf ("211 0 0 0 misc.test".toList ++ CRLF) ∉ errorCodes ∧
    getArticlesIn "misc.test".toList ["7".toList, "8".toList] .body
        (sampleSession "garbage here".toList)
      = (.ok ["short".toList, "two lines,\r\n..the second".toList],
         ⟨true, true, ["garbage here\r\n".toList, "unread".toList],
          ["group misc.test\r\n".toList, "body 7\r\n".toList, "body 8\r\n".toList]⟩) ∧
    Answers
      ⟨true, true, ["garbage here\r\n".toList, "unread".toList],
        ["group misc.test\r\n".toList, "body 7\r\n".toList, "body 8\r\n".toList]⟩
      "garbage here".toList ["unread".toList] ∧
    getArticles ["7".toList, "8".toList] .body (sampleSessionById "garbage here".toList)
      = (.ok ["short".toList, "two lines,\r\n..the second".toList],
         ⟨true, true, ["garbage here\r\n".toList, "unread".toList],
          ["body 7\r\n".toList, "body 8\r\n".toList]⟩) ∧
    Answers
      ⟨true, true, ["garbage here\r\n".toList, "unread".toList],
        ["body 7\r\n".toList, "body 8\r\n".toList]⟩
      "garbage here".toList ["unread".toList] ∧
    (nextArticle ⟨true, true, ["garbage here\r\n".toList], []⟩).1
      = .error (.parameter "error while reading socket data") ∧
    (existArticleIn "misc.test".toList "7".toList
      ⟨true, true, ["211 0 0 0 misc.test\r\n".toList, "garbage here\r\n".toList], []⟩).1
      = .error (.parameter "error while reading socket data") ∧
    (getArticlesIn "misc.test".toList (["7".toList, "8".toList] ++ "9".toList :: []) .body
      (sampleSession "garbage here".toList)).1
      = .error (.parameter "error while reading socket data") ∧
    (getArticles (["7".toList, "8".toList] ++ "9".toList :: []) .body
      (sampleSessionById "garbage here".toList)).1
      = .error (.parameter "error while reading socket data") :=
  have hw := malformed_status_raises
    ⟨true, true, ["garbage here\r\n".toList], []⟩ "garbage here".toList [] (by decide) (by decide)
    ⟨true, true, ["211 0 0 0 misc.test\r\n".toList, "garbage here\r\n".toList], []⟩
    "211 0 0 0 misc.test".toList "garbage here".toList ["garbage here\r\n".toList] []
    (by decide) (by decide) (by decide) (by decide)
    (sampleSession "garbage here".toList)
    ⟨true, true, ["garbage here\r\n".toList, "unread".toList],
      ["group misc.test\r\n".toList, "body 7\r\n".toList, "body 8\r\n".toList]⟩
    "misc.test".toList ["7".toList, "8".toList]
    ["short".toList, "two lines,\r\n..the second".toList] .body
    "garbage here".toList ["unread".toList] (by decide) (by decide) (by decide)
    (sampleSessionById "garbage here".toList)
    ⟨true, true, ["garbage here\r\n".toList, "unread".toList],
      ["body 7\r\n".toList, "body 8\r\n".toList]⟩
    ["7".toList, "8".toList] ["short".toList, "two lines,\r\n..the second".toList] .body
    "garbage here".toList ["unread".toList] (by decide) (by decide) (by decide)
  ⟨by decide, by decide, by decide, by decide, by decide, by decide, by decide, by decide,
   by decide, hw.2.1.2.2.2.2.2.2.2.2.2.2, hw.2.2.1.2 "misc.test".toList "7".toList,
   hw.2.2.2.1 "9".toList [], hw.2.2.2.2 "9".toList []⟩

/-! ### The status code `send` separates -/

theorem digitVal_le (c : Char) (d : Nat) (h : digitVal c = some d) : d ≤ 9 := by
  unfold digitVal at h
  split at h
  · rename_i hc
    have h9 : c.toNat ≤ 57 := hc.2
    simp at h
    omega
  · simp at h

theorem cast_minus (ds : List Char) :
    lexical_cast_uint ('-' :: ds) =
      match ds with
      | [] => none
      | _ :: _ =>
        match digitsVal 0 ds with
        | none => none
        | some v => if v < 2 ^ 32 then some ((2 ^ 32 - v) % 2 ^ 32) else none := by
  cases ds <;> simp [lexical_cast_uint]

theorem cast_plus (ds : List Char) :
    lexical_cast_uint ('+' :: ds) =
      match ds with
      | [] => none
      | _ :: _ =>
        match digitsVal 0 ds with
        | none => none
        | some v => if v < 2 ^ 32 then some v else none := by
  cases ds <;> simp [lexical_cast_uint]

theorem cast_plain (a : Char) (ds : List Char) (h1 : a ≠ '-') (h2 : a ≠ '+') :
    lexical_cast_uint (a :: ds) =
      match digitsVal 0 (a :: ds) with
      | none => none
      | some v => if v < 2 ^ 32 then some v else none := by
  unfold lexical_cast_uint
  split
  · rename_i h; simp at h
  · rename_i h; simp at h; exact absurd h.1 h1
  · rename_i h; simp at h; exact absurd h.1 h2
  · simp

/-- The cast of exactly three characters. -/
theorem cast_three (a b c : Char) :
    lexical_cast_uint [a, b, c] =
      if a = '-' then
        match digitVal b, digitVal c with
        | some db, some dc => some ((2 ^ 32 - (10 * db + dc)) % 2 ^ 32)
        | _, _ => none
      else if a = '+' then
        match digitVal b, digitVal c with
        | some db, some dc => some (10 * db + dc)
        | _, _ => none
      else
        match digitVal a, digitVal b, digitVal c with
        | some da, some db, some dc => some (100 * da + 10 * db + dc)
        | _, _, _ => none := by
  by_cases hm : a = '-'
  · subst hm
    rw [cast_minus]
    simp only [digitsVal, if_true]
    cases hb : digitVal b with
    | none => simp
    | some db =>
      cases hc : digitVal c with
      | none => simp
      | some dc =>
        have := digitVal_le b db hb
        have := digitVal_le c dc hc
        have hlt : (0 * 10 + db) * 10 + dc < 2 ^ 32 := by omega
        simp only [hlt, if_true]
        congr 3
        omega
  · by_cases hp : a = '+'
    · subst hp
      rw [cast_plus]
      simp only [digitsVal, hm, if_false, if_true]
      cases hb : digitVal b with
      | none => simp
      | some db =>
        cases hc : digitVal c with
        | none => simp
        | some dc =>
          have := digitVal_le b db hb
          have := digitVal_le c dc hc
          have hlt : (0 * 10 + db) * 10 + dc < 2 ^ 32 := by omega
          simp only [hlt, if_true]
          congr 1
          omega
    · rw [cast_plain a _ hm hp]
      simp only [digitsVal, hm, hp, if_false]
      cases ha : digitVal a with
      | none => simp
      | some da =>
        cases hb : digitVal b with
        | none => simp
        | some db =>
          cases hc : digitVal c with
          | none => simp
          | some dc =>
            have := digitVal_le a da ha
            have := digitVal_le b db hb
            have := digitVal_le c dc hc
            have hlt : ((0 * 10 + da) * 10 + db) * 10 + dc < 2 ^ 32 := by omega
            simp only [hlt, if_true]
            congr 1
            omega

theorem digitVal_cr : digitVal '\r' = none := by decide

theorem digitVal_lf : digitVal '\n' = none := by decide

/-- The status code of a line that starts with neither three digits nor a sign and two digits
is 0. -/
theorem statusOf_other (l : List Char)
    (h : ∀ a b c t, l = a :: b :: c :: t →
      ¬ ((digitVal a ≠ none ∨ a = '+' ∨ a = '-') ∧ digitVal b ≠ none ∧ digitVal c ≠ none)) :
    statusOf (l ++ CRLF) = 0 := by
  match l, h with
  | [], _ =>
    have : lexical_cast_uint ['\r', '\n'] = none := by decide
    simp [statusOf, CRLF, this]
  | [a], _ =>
    have : lexical_cast_uint [a, '\r', '\n'] = none := by
      rw [cast_three]
      simp only [digitVal_cr, digitVal_lf]
      split
      · rfl
      · split
        · rfl
        · cases digitVal a <;> rfl
    simp [statusOf, CRLF, this]
  | [a, b], _ =>
    have : lexical_cast_uint [a, b, '\r'] = none := by
      rw [cast_three]
      simp only [digitVal_cr]
      split
      · cases digitVal b <;> rfl
      · split
        · cases digitVal b <;> rfl
        · cases digitVal a <;> cases digitVal b <;> rfl
    simp [statusOf, CRLF, this]
  | a :: b :: c :: t, h =>
    have hn := h a b c t rfl
    have : lexical_cast_uint [a, b, c] = none := by
      rw [cast_three]
      split
      · rename_i ha
        cases hb : digitVal b with
        | none => rfl
        | some db =>
          cases hc : digitVal c with
          | none => rfl
          | some dc => exact absurd ⟨Or.inr (Or.inr ha), by simp [hb], by simp [hc]⟩ hn
      · split
        · rename_i ha
          cases hb : digitVal b with
          | none => rfl
          | some db =>
            cases hc : digitVal c with
            | none => rfl
            | some dc => exact absurd ⟨Or.inr (Or.inl ha), by simp [hb], by simp [hc]⟩ hn
        · cases ha : digitVal a with
          | none => rfl
          | some da =>
            cases hb : digitVal b with
            | none => rfl
            | some db =>
              cases hc : digitVal c with
              | none => rfl
              | some dc => exact absurd ⟨Or.inl (by simp [ha]), by simp [hb], by simp [hc]⟩ hn
    simp [statusOf, this]

/-- C12 (as stated, refuted): the status line starts with a plus sign and two digits, not with
three decimal digits, and `send` yields 12 instead of 0. -/
theorem send_signed_status :
    Answers ⟨true, true, ["+12 hello\r\n".toList], []⟩ "+12 hello".toList [] ∧
    digitVal '+' = none ∧
    (send "next".toList false ⟨true, true, ["+12 hello\r\n".toList], []⟩).1 = .ok 12 := by
  decide

/-- C12 (amended): for every status line the server returns, `send` with enforcement off
returns the code without raising, whatever the code is; the code is the number formed by the
three leading decimal digits when the line begins with three decimal digits; it is the two
digit number after a leading plus sign, and `2^32` minus that number (modulo `2^32`) after a
leading minus sign; and it is 0 in every other case, a line shorter than three characters
included. -/
theorem send_status_code (p_cmd : List Char) (s : Socket) (l : List Char) (rest : List (List Char))
    (h : Answers s l rest) :
    (send p_cmd false s).1 = .ok (statusOf (l ++ CRLF)) ∧
    (∀ a b c t da db dc, l = a :: b :: c :: t →
      digitVal a = some da → digitVal b = some db → digitVal c = some dc →
      statusOf (l ++ CRLF) = 100 * da + 10 * db + dc) ∧
    (∀ b c t db dc, l = '+' :: b :: c :: t → digitVal b = some db → digitVal c = some dc →
      statusOf (l ++ CRLF) = 10 * db + dc) ∧
    (∀ b c t db dc, l = '-' :: b :: c :: t → digitVal b = some db → digitVal c = some dc →
      statusOf (l ++ CRLF) = (2 ^ 32 - (10 * db + dc)) % 2 ^ 32) ∧
    ((∀ a b c t, l = a :: b :: c :: t →
        ¬ ((digitVal a ≠ none ∨ a = '+' ∨ a = '-') ∧ digitVal b ≠ none ∧ digitVal c ≠ none)) →
      statusOf (l ++ CRLF) = 0) := by
  refine ⟨?_, ?_, ?_, ?_, statusOf_other l⟩
  · rw [send_answers p_cmd false s l rest h]
    simp
  · intro a b c t da db dc hl ha hb hc
    subst hl
    have hm : a ≠ '-' := fun hx => by
      rw [hx, show digitVal '-' = none by decide] at ha
      exact absurd ha (by simp)
    have hp : a ≠ '+' := fun hx => by
      rw [hx, show digitVal '+' = none by decide] at ha
      exact absurd ha (by simp)
    have : lexical_cast_uint [a, b, c] = some (100 * da + 10 * db + dc) := by
      rw [cast_three]
      simp [hm, hp, ha, hb, hc]
    simp [statusOf, this]
  · intro b c t db dc hl hb hc
    subst hl
    have : lexical_cast_uint ['+', b, c] = some (10 * db + dc) := by
      rw [cast_three]
      simp [hb, hc]
    simp [statusOf, this]
  · intro b c t db dc hl hb hc
    subst hl
    have : lexical_cast_uint ['-', b, c] = some ((2 ^ 32 - (10 * db + dc)) % 2 ^ 32) := by
      rw [cast_three]
      simp [hb, hc]
    simp [statusOf, this]

/-- C12 (amended), instance: the line 211 gives the code 211 with enforcement off. -/
theorem send_status_code_witness :
    Answers ⟨true, true, ["211 3 7 9 misc.test\r\n".toList], []⟩ "211 3 7 9 misc.test".toList [] ∧
    (send "group misc.test".toList false
      ⟨true, true, ["211 3 7 9 misc.test\r\n".toList], []⟩).1
      = .ok (statusOf ("211 3 7 9 misc.test".toList ++ CRLF)) ∧
    statusOf ("211 3 7 9 misc.test".toList ++ CRLF) = 100 * 2 + 10 * 1 + 1 :=
  ⟨by decide,
   (send_status_code "group misc.test".toList
      ⟨true, true, ["211 3 7 9 misc.test\r\n".toList], []⟩ "211 3 7 9 misc.test".toList []
      (by decide)).1,
   (send_status_code "group misc.test".toList
      ⟨true, true, ["211 3 7 9 misc.test\r\n".toList], []⟩ "211 3 7 9 misc.test".toList []
      (by decide)).2.1 '2' '1' '1' " 3 7 9 misc.test".toList 2 1 1 rfl (by decide) (by decide)
      (by decide)⟩

/-- C15 (code at the failing input): from a listing body of five lines, each ended by CR LF (a
header line, the article numbers 101 and 102, and two trailer lines), that follows the status
line in a delivery of its own, `getArticleIDs` writes its single listgroup command and returns
the second and the third segment between LF characters, which are the lines 101 and 102 each
followed by a CR, not the lines of the body themselves. -/
theorem getArticleIDs_lines_keep_cr :
    (getArticleIDs "alt.test".toList
      ⟨true, true,
        ["211 2 101 102 alt.test list follows\r\n".toList,
          "header\r\n101\r\n102\r\ntrailer\r\nend\r\n.\r\n".toList], []⟩).2.output
      = ["listgroup alt.test\r\n".toList] ∧
    "header\r\n101\r\n102\r\ntrailer\r\nend\r\n".toList
      = crlfLines ["header".toList, "101".toList, "102".toList, "trailer".toList, "end".toList] ∧
    (getArticleIDs "alt.test".toList
      ⟨true, true,
        ["211 2 101 102 alt.test list follows\r\n".toList,
          "header\r\n101\r\n102\r\ntrailer\r\nend\r\n.\r\n".toList], []⟩).1
      = .ok ["101\r".toList, "102\r".toList] ∧
    (getArticleIDs "alt.test".toList
      ⟨true, true,
        ["211 2 101 102 alt.test list follows\r\n".toList,
          "header\r\n101\r\n102\r\ntrailer\r\nend\r\n.\r\n".toList], []⟩).1
      ≠ .ok ["101".toList, "102".toList] := by
  decide

/-! ### The count stored for a listing line -/

/-- The value of the character that stands for a decimal digit. -/
theorem digitVal_digitChar (d : Nat) (h : d < 10) : digitVal (Nat.digitChar d) = some d := by
  interval_cases d <;> decide

theorem digitChar_not_sign (d : Nat) (h : d < 10) :
    Nat.digitChar d ≠ '-' ∧ Nat.digitChar d ≠ '+' := by
  interval_cases d <;> decide

/-- A character with a digit value is the character that stands for that digit. -/
theorem digitVal_some (c : Char) (d : Nat) (h : digitVal c = some d) :
    d < 10 ∧ c = Nat.digitChar d := by
  unfold digitVal at h
  split at h
  · rename_i hc
    have h0 : 48 ≤ c.toNat := hc.1
    have h9 : c.toNat ≤ 57 := hc.2
    simp only [Option.some.injEq] at h
    have hcn : c = Char.ofNat c.toNat := (Char.ofNat_toNat c).symm
    have h48 : '0'.toNat = 48 := rfl
    rw [h48] at h
    subst h
    generalize c.toNat = n at *
    subst hcn
    interval_cases n <;> exact ⟨by decide, by decide⟩
  · simp at h

/-- A run of decimal digits is read as the number it denotes. -/
theorem digitsVal_digits (ds : List Nat) (acc : Nat) (h : ∀ d ∈ ds, d < 10) :
    digitsVal acc (ds.map Nat.digitChar)
      = some (acc * 10 ^ ds.length + Nat.ofDigits 10 ds.reverse) := by
  induction ds generalizing acc with
  | nil => simp [digitsVal]
  | cons d ds ih =>
    have hd := digitVal_digitChar d (h d (by simp))
    simp only [List.map_cons, digitsVal, hd]
    rw [ih _ (fun x hx => h x (by simp [hx]))]
    simp only [List.reverse_cons, Nat.ofDigits_append, Nat.ofDigits_singleton,
      List.length_reverse, List.length_cons]
    congr 1
    ring

/-- Only a run of decimal digits is read as a number. -/
theorem digitsVal_some (cs : List Char) (acc v : Nat) (h : digitsVal acc cs = some v) :
    ∃ ds : List Nat, (∀ d ∈ ds, d < 10) ∧ cs = ds.map Nat.digitChar := by
  induction cs generalizing acc with
  | nil => exact ⟨[], by simp, rfl⟩
  | cons c cs ih =>
    simp only [digitsVal] at h
    cases hc : digitVal c with
    | none => simp [hc] at h
    | some d =>
      simp only [hc] at h
      obtain ⟨ds, hds, hcs⟩ := ih _ h
      obtain ⟨hd, hcd⟩ := digitVal_some c d hc
      exact ⟨d :: ds, by simpa [hd] using hds, by simp [hcd, hcs]⟩

/-- The cast of a run of digits, with or without a plus sign in front. -/
theorem cast_digits (ds : List Nat) (hne : ds ≠ []) (h : ∀ d ∈ ds, d < 10) :
    lexical_cast_uint (ds.map Nat.digitChar)
      = (if Nat.ofDigits 10 ds.reverse < 2 ^ 32 then some (Nat.ofDigits 10 ds.reverse)
          else none) ∧
    lexical_cast_uint ('+' :: ds.map Nat.digitChar)
      = (if Nat.ofDigits 10 ds.reverse < 2 ^ 32 then some (Nat.ofDigits 10 ds.reverse)
          else none) ∧
    lexical_cast_uint ('-' :: ds.map Nat.digitChar)
      = (if Nat.ofDigits 10 ds.reverse < 2 ^ 32
          then some ((2 ^ 32 - Nat.ofDigits 10 ds.reverse) % 2 ^ 32) else none) := by
  have hv := digitsVal_digits ds 0 h
  simp only [Nat.zero_mul, Nat.zero_add] at hv
  cases ds with
  | nil => exact absurd rfl hne
  | cons d ds =>
    have hs := digitChar_not_sign d (h d (by simp))
    refine ⟨?_, ?_, ?_⟩
    · rw [List.map_cons, cast_plain _ _ hs.1 hs.2, ← List.map_cons, hv]
    · rw [cast_plus, List.map_cons]
      simp only []
      rw [← List.map_cons, hv]
    · rw [cast_minus, List.map_cons]
      simp only []
      rw [← List.map_cons, hv]

/-- A token that casts is a run of digits with or without a sign in front. -/
theorem cast_some_form (t : List Char) (n : Nat) (h : lexical_cast_uint t = some n) :
    ∃ ds : List Nat, ds ≠ [] ∧ (∀ d ∈ ds, d < 10) ∧
      (t = ds.map Nat.digitChar ∨ t = '+' :: ds.map Nat.digitChar ∨
        t = '-' :: ds.map Nat.digitChar) := by
  have key : ∀ cs : List Char, cs ≠ [] → ∀ v, digitsVal 0 cs = some v →
      ∃ ds : List Nat, ds ≠ [] ∧ (∀ d ∈ ds, d < 10) ∧ cs = ds.map Nat.digitChar := by
    intro cs hcs v hv
    obtain ⟨ds, hds, he⟩ := digitsVal_some cs 0 v hv
    refine ⟨ds, ?_, hds, he⟩
    intro hx
    subst hx
    exact hcs (by simpa using he)
  cases t with
  | nil => simp [lexical_cast_uint] at h
  | cons a cs =>
    by_cases hm : a = '-'
    · subst hm
      rw [cast_minus] at h
      cases cs with
      | nil => simp at h
      | cons b cs =>
        simp only [] at h
        cases hv : digitsVal 0 (b :: cs) with
        | none => simp [hv] at h
        | some v =>
          obtain ⟨ds, hne, hds, he⟩ := key (b :: cs) (by simp) v hv
          exact ⟨ds, hne, hds, Or.inr (Or.inr (by rw [he]))⟩
    · by_cases hp : a = '+'
      · subst hp
        rw [cast_plus] at h
        cases cs with
        | nil => simp at h
        | cons b cs =>
          simp only [] at h
          cases hv : digitsVal 0 (b :: cs) with
          | none => simp [hv] at h
          | some v =>
            obtain ⟨ds, hne, hds, he⟩ := key (b :: cs) (by simp) v hv
            exact ⟨ds, hne, hds, Or.inr (Or.inl (by rw [he]))⟩
      · rw [cast_plain a cs hm hp] at h
        cases hv : digitsVal 0 (a :: cs) with
        | none => simp [hv] at h
        | some v =>
          obtain ⟨ds, hne, hds, he⟩ := key (a :: cs) (by simp) v hv
          exact ⟨ds, hne, hds, Or.inl he⟩

/-- The number stored for a count token, told by the form of the token: the number a run of
decimal digits denotes, with or without a plus sign in front, when it is below `2^32`; `2^32`
minus that number, modulo `2^32`, after a minus sign; and 0 for every other token. -/
theorem cast_token (t : List Char) (v : Nat) :
    v = (lexical_cast_uint t).getD 0 ↔
      ((∀ ds : List Nat, ds ≠ [] → (∀ d ∈ ds, d < 10) →
          ((t = ds.map Nat.digitChar ∨ t = '+' :: ds.map Nat.digitChar) →
            v = if Nat.ofDigits 10 ds.reverse < 2 ^ 32 then Nat.ofDigits 10 ds.reverse
              else 0) ∧
          (t = '-' :: ds.map Nat.digitChar →
            v = if Nat.ofDigits 10 ds.reverse < 2 ^ 32
              then (2 ^ 32 - Nat.ofDigits 10 ds.reverse) % 2 ^ 32 else 0)) ∧
        ((∀ ds : List Nat, ds ≠ [] → (∀ d ∈ ds, d < 10) →
            t ≠ ds.map Nat.digitChar ∧ t ≠ '+' :: ds.map Nat.digitChar ∧
            t ≠ '-' :: ds.map Nat.digitChar) →
          v = 0)) := by
  have hform : ∀ ds : List Nat, ds ≠ [] → (∀ d ∈ ds, d < 10) →
      ((t = ds.map Nat.digitChar ∨ t = '+' :: ds.map Nat.digitChar) →
        (lexical_cast_uint t).getD 0
          = if Nat.ofDigits 10 ds.reverse < 2 ^ 32 then Nat.ofDigits 10 ds.reverse else 0) ∧
      (t = '-' :: ds.map Nat.digitChar →
        (lexical_cast_uint t).getD 0
          = if Nat.ofDigits 10 ds.reverse < 2 ^ 32
            then (2 ^ 32 - Nat.ofDigits 10 ds.reverse) % 2 ^ 32 else 0) := by
    intro ds hne hds
    obtain ⟨c1, c2, c3⟩ := cast_digits ds hne hds
    constructor
    · rintro (ht | ht)
      · rw [ht, c1]
        split <;> rfl
      · rw [ht, c2]
        split <;> rfl
    · intro ht
      rw [ht, c3]
      split <;> rfl
  have hnone : (∀ ds : List Nat, ds ≠ [] → (∀ d ∈ ds, d < 10) →
      t ≠ ds.map Nat.digitChar ∧ t ≠ '+' :: ds.map Nat.digitChar ∧
      t ≠ '-' :: ds.map Nat.digitChar) → (lexical_cast_uint t).getD 0 = 0 := by
    intro hno
    cases hc : lexical_cast_uint t with
    | none => rfl
    | some n =>
      obtain ⟨ds, hne, hds, hf⟩ := cast_some_form t n hc
      obtain ⟨n1, n2, n3⟩ := hno ds hne hds
      rcases hf with hf | hf | hf
      · exact absurd hf n1
      · exact absurd hf n2
      · exact absurd hf n3
  constructor
  · intro hv
    subst hv
    exact ⟨hform, hnone⟩
  · rintro ⟨h1, h2⟩
    by_cases hex : ∃ ds : List Nat, ds ≠ [] ∧ (∀ d ∈ ds, d < 10) ∧
        (t = ds.map Nat.digitChar ∨ t = '+' :: ds.map Nat.digitChar ∨
          t = '-' :: ds.map Nat.digitChar)
    · obtain ⟨ds, hne, hds, hf⟩ := hex
      rcases hf with hf | hf | hf
      · rw [(h1 ds hne hds).1 (Or.inl hf), (hform ds hne hds).1 (Or.inl hf)]
      · rw [(h1 ds hne hds).1 (Or.inr hf), (hform ds hne hds).1 (Or.inr hf)]
      · rw [(h1 ds hne hds).2 hf, (hform ds hne hds).2 hf]
    · have hno : ∀ ds : List Nat, ds ≠ [] → (∀ d ∈ ds, d < 10) →
          t ≠ ds.map Nat.digitChar ∧ t ≠ '+' :: ds.map Nat.digitChar ∧
          t ≠ '-' :: ds.map Nat.digitChar := by
        intro ds hne hds
        refine ⟨?_, ?_, ?_⟩ <;> intro hx
        · exact hex ⟨ds, hne, hds, Or.inl hx⟩
        · exact hex ⟨ds, hne, hds, Or.inr (Or.inl hx)⟩
        · exact hex ⟨ds, hne, hds, Or.inr (Or.inr hx)⟩
      rw [h2 hno, hnone hno]

/-- C6 (as stated, refuted): in a listing whose lines carry the count tokens 4294967296 and
-1, both of them runs of decimal digits (the second after a minus sign), `getGroupList` stores
0 for the first name and 4294967295 for the second, not the integers the tokens denote. -/
theorem getGroupList_count_not_parsed :
    "4294967296".toList = [4, 2, 9, 4, 9, 6, 7, 2, 9, 6].map Nat.digitChar ∧
    Nat.ofDigits 10 [4, 2, 9, 4, 9, 6, 7, 2, 9, 6].reverse = 4294967296 ∧
    (getGroupList ⟨true, true,
      ["215 list follows\r\n".toList,
        "header\r\nalt.test 4294967296 1 y\r\nmisc.test -1 1 y\r\ntrailer\r\nend\r\n.\r\n".toList],
      []⟩).1
      = .ok [("alt.test".toList, 0), ("misc.test".toList, 4294967295)] := by
  decide

/-- C6 (amended): for every listing body of one header line, N lines of the form name, blank,
count token, blank, remainder, and two trailer lines, the lines separated by CR LF, that
follows the status line in deliveries of its own, however cut, `getGroupList` returns a map
whose keys are exactly the names of the N lines, each key once (N entries when the names are
distinct, fewer when a name repeats), and whose value for a name comes from the count token of
the last line with that name: the number the token denotes when it is a run of decimal digits,
with or without a plus sign in front, denoting a number below `2^32`; `2^32` minus that number,
modulo `2^32`, when the digits follow a minus sign; and 0 for every other token, a run of
digits denoting `2^32` or more included. -/
theorem getGroupList_listing (s : Socket) (st hdr t1 t2 : List Char)
    (chunks rest : List (List Char)) (es : List GroupLine)
    (hA : Answers s st (chunks ++ rest)) (hst : isSuccess (statusOf (st ++ CRLF)))
    (hh : ∀ l ∈ [hdr, t1, t2], '\n' ∉ l ∧ l ≠ ['.'])
    (he : ∀ e ∈ es, ' ' ∉ e.name ∧ '\n' ∉ e.name ∧ ' ' ∉ e.count ∧ '\n' ∉ e.count ∧
      '\n' ∉ e.more)
    (hc : ∀ c ∈ chunks, c ≠ [])
    (hj : chunks.flatten = crlfLines (hdr :: (es.map GroupLine.text ++ [t1])) ++ t2 ++ DOTCRLF) :
    ∃ m : GroupMap, (getGroupList s).1 = .ok m ∧
      (∀ k, k ∈ m.map Prod.fst ↔ k ∈ es.map (·.name)) ∧
      (m.map Prod.fst).Nodup ∧
      ((es.map (·.name)).Nodup → m.length = es.length) ∧
      (¬ (es.map (·.name)).Nodup → m.length < es.length) ∧
      (∀ k v, (k, v) ∈ m ↔
        ∃ pre e post, es = pre ++ e :: post ∧ e.name = k ∧ (∀ x ∈ post, x.name ≠ k) ∧
          (∀ ds : List Nat, ds ≠ [] → (∀ d ∈ ds, d < 10) →
            ((e.count = ds.map Nat.digitChar ∨ e.count = '+' :: ds.map Nat.digitChar) →
              v = if Nat.ofDigits 10 ds.reverse < 2 ^ 32 then Nat.ofDigits 10 ds.reverse
                else 0) ∧
            (e.count = '-' :: ds.map Nat.digitChar →
              v = if Nat.ofDigits 10 ds.reverse < 2 ^ 32
                then (2 ^ 32 - Nat.ofDigits 10 ds.reverse) % 2 ^ 32 else 0)) ∧
          ((∀ ds : List Nat, ds ≠ [] → (∀ d ∈ ds, d < 10) →
              e.count ≠ ds.map Nat.digitChar ∧ e.count ≠ '+' :: ds.map Nat.digitChar ∧
              e.count ≠ '-' :: ds.map Nat.digitChar) →
            v = 0)) := by
  refine ⟨es.foldl (fun acc e => mapSet acc e.name e.value) [], ?_, ?_, ?_, ?_, ?_, ?_⟩
  · rw [getGroupList_frame s st hdr t1 t2 chunks rest es hA hst hh he hc hj]
  · exact fold_mapSet_keys es
  · exact keySorted_nodup _ (fold_mapSet es).1
  · intro hnd
    rw [fold_mapSet_length, hnd.dedup]
    simp
  · intro hnd
    rw [fold_mapSet_length]
    simpa using dedup_length_lt _ hnd
  · intro k v
    rw [(fold_mapSet es).2 k v]
    constructor
    · rintro ⟨pre, e, post, h1, h2, h3, h4⟩
      exact ⟨pre, e, post, h1, h2, h3, (cast_token e.count v).mp h4⟩
    · rintro ⟨pre, e, post, h1, h2, h3, h4, h5⟩
      exact ⟨pre, e, post, h1, h2, h3, (cast_token e.count v).mpr ⟨h4, h5⟩⟩

/-- C6 (amended), instance: a listing of three lines with one repeated name, arriving in two
deliveries after the status line, yields two entries, the repeated name with the count of its
last line and the count token that is not a number as 0. -/
theorem getGroupList_listing_witness :
    Answers
      ⟨true, true,
        ["215 list follows\r\n".toList, "header\r\nmisc.test 5 1 y\r\nalt.te".toList,
          "st x9 1 y\r\nmisc.test 8 3 y\r\ntrailer\r\nend\r\n.\r\n".toList], []⟩
      "215 list follows".toList
      (["header\r\nmisc.test 5 1 y\r\nalt.te".toList,
          "st x9 1 y\r\nmisc.test 8 3 y\r\ntrailer\r\nend\r\n.\r\n".toList] ++ []) ∧
    isSuccess (statusOf ("215 list follows".toList ++ CRLF)) ∧
    (∀ l ∈ ["header".toList, "trailer".toList, "end".toList], '\n' ∉ l ∧ l ≠ ['.']) ∧
    (∀ e ∈ sampleLines, ' ' ∉ e.name ∧ '\n' ∉ e.name ∧ ' ' ∉ e.count ∧ '\n' ∉ e.count ∧
      '\n' ∉ e.more) ∧
    (∀ c ∈ ["header\r\nmisc.test 5 1 y\r\nalt.te".toList,
        "st x9 1 y\r\nmisc.test 8 3 y\r\ntrailer\r\nend\r\n.\r\n".toList], c ≠ []) ∧
    ["header\r\nmisc.test 5 1 y\r\nalt.te".toList,
        "st x9 1 y\r\nmisc.test 8 3 y\r\ntrailer\r\nend\r\n.\r\n".toList].flatten
      = crlfLines ("header".toList :: (sampleLines.map GroupLine.text ++ ["trailer".toList])) ++
          "end".toList ++ DOTCRLF ∧
    (getGroupList
      ⟨true, true,
        ["215 list follows\r\n".toList, "header\r\nmisc.test 5 1 y\r\nalt.te".toList,
          "st x9 1 y\r\nmisc.test 8 3 y\r\ntrailer\r\nend\r\n.\r\n".toList], []⟩).1
      = .ok [("alt.test".toList, 0), ("misc.test".toList, 8)] ∧
    ∃ m : GroupMap,
      (getGroupList
        ⟨true, true,
          ["215 list follows\r\n".toList, "header\r\nmisc.test 5 1 y\r\nalt.te".toList,
            "st x9 1 y\r\nmisc.test 8 3 y\r\ntrailer\r\nend\r\n.\r\n".toList], []⟩).1 = .ok m ∧
      ∀ k, k ∈ m.map Prod.fst ↔ k ∈ sampleLines.map (·.name) :=
  ⟨by decide, by decide, by decide, by decide, by decide, by decide, by decide,
   (getGroupList_listing
      ⟨true, true,
        ["215 list follows\r\n".toList, "header\r\nmisc.test 5 1 y\r\nalt.te".toList,
          "st x9 1 y\r\nmisc.test 8 3 y\r\ntrailer\r\nend\r\n.\r\n".toList], []⟩
      "215 list follows".toList "header".toList "trailer".toList "end".toList
      ["header\r\nmisc.test 5 1 y\r\nalt.te".toList,
        "st x9 1 y\r\nmisc.test 8 3 y\r\ntrailer\r\nend\r\n.\r\n".toList] [] sampleLines
      (by decide) (by decide) (by decide) (by decide) (by decide) (by decide)).imp
      (fun _ h => ⟨h.1, h.2.1⟩)⟩

/-- Outside the listing form treated above: a line that ends right after its count token
keeps the CR before its LF on the token, and the count is stored as 0; and a listing that
arrives in the same delivery as its status line is dropped with the buffer of `send`, so that
the read of the body fails. -/
theorem getGroupList_line_end_and_delivery :
    (getGroupList ⟨true, true,
      ["215 list follows\r\n".toList,
        "header\r\nmisc.test 5\r\ntrailer\r\nend\r\n.\r\n".toList], []⟩).1
      = .ok [("misc.test".toList, 0)] ∧
    split ' ' "misc.test 5\r".toList = ["misc.test".toList, "5\r".toList] ∧
    (getGroupList ⟨true, true,
      ["215 list follows\r\nheader\r\nmisc.test 5 1 y\r\ntrailer\r\nend\r\n.\r\n".toList],
      []⟩).1
      = .error .system_error := by
  decide

/-! ### Replies that arrive together with what follows them -/

/-- C9 (code at the failing inputs): the server confirms the group and answers the fetch of
article 7 with a success status and the body `short`. When the body arrives in the same
delivery as its status line, `send` takes both into its local buffer and drops them with it,
the body read then finds the deliveries at their end and the operation raises instead of
returning the body; the same bytes with the body in a delivery of its own give the body. When
the body is empty, so that the status line is followed by dot CR LF alone, the closing
delimiter CR LF dot CR LF never arrives after the status line and the operation raises, whether
the dot line comes in a delivery of its own or with the status line. -/
theorem getArticlesIn_loses_body :
    (getArticlesIn "misc.test".toList ["7".toList] .body
      ⟨true, true,
        ["211 3 7 9 misc.test\r\n".toList,
          "222 7 <a@example> body follows\r\nshort\r\n.\r\n".toList], []⟩).1
      = .error .system_error ∧
    (getArticlesIn "misc.test".toList ["7".toList] .body
      ⟨true, true,
        ["211 3 7 9 misc.test\r\n".toList, "222 7 <a@example> body follows\r\n".toList,
          "short\r\n.\r\n".toList], []⟩).1
      = .ok ["short".toList] ∧
    isSuccess (statusOf "211 3 7 9 misc.test\r\n".toList) ∧
    isSuccess (statusOf "222 7 <a@example> body follows\r\n".toList) ∧
    (getArticlesIn "misc.test".toList ["7".toList] .body
      ⟨true, true,
        ["211 3 7 9 misc.test\r\n".toList, "222 7 <a@example> body follows\r\n".toList,
          ".\r\n".toList], []⟩).1
      = .error .system_error ∧
    (getArticlesIn "misc.test".toList ["7".toList] .body
      ⟨true, true,
        ["211 3 7 9 misc.test\r\n".toList, "222 7 <a@example> body follows\r\n.\r\n".toList],
        []⟩).1
      = .error .system_error := by
  decide

/-! ### Constructor and destructor -/

theorem connectLoop_done (eps : List Endpoint) (st : ConnectState) (h : st.l_error = false) :
    connectLoop eps st = st := by
  cases eps with
  | nil => rfl
  | cons ep eps => simp [connectLoop, h]

theorem connectLoop_step (ep : Endpoint) (eps : List Endpoint) (st : ConnectState)
    (h : st.l_error = true) :
    connectLoop (ep :: eps) st
      = connectLoop eps ⟨!ep.connects, connectTo ep, st.attempted ++ [ep]⟩ := by
  simp [connectLoop, h]

/-- While every address fails the loop goes on, recording each one. -/
theorem connectLoop_all_fail (eps : List Endpoint) (st : ConnectState)
    (h : st.l_error = true) (hf : ∀ ep ∈ eps, ep.connects = false) :
    (connectLoop eps st).l_error = true ∧
    (connectLoop eps st).attempted = st.attempted ++ eps := by
  induction eps generalizing st with
  | nil => simp [connectLoop, h]
  | cons ep eps ih =>
    have hep : ep.connects = false := hf ep (by simp)
    simp only [connectLoop, h, if_true]
    have := ih ⟨!ep.connects, connectTo ep, st.attempted ++ [ep]⟩ (by simp [hep])
      (fun x hx => hf x (by simp [hx]))
    simpa using this

/-- The loop stops at the first address that connects. -/
theorem connectLoop_first (pre : List Endpoint) (c : Endpoint) (post : List Endpoint)
    (st : ConnectState) (h : st.l_error = true)
    (hf : ∀ ep ∈ pre, ep.connects = false) (hc : c.connects = true) :
    connectLoop (pre ++ c :: post) st = ⟨false, connectTo c, st.attempted ++ pre ++ [c]⟩ := by
  induction pre generalizing st with
  | nil =>
    simp only [List.nil_append, connectLoop, h, if_true]
    rw [connectLoop_done _ _ (by simp [hc])]
    simp [hc]
  | cons ep pre ih =>
    have hep : ep.connects = false := hf ep (by simp)
    have := ih ⟨!ep.connects, connectTo ep, st.attempted ++ [ep]⟩ (by simp [hep])
      (fun x hx => hf x (by simp [hx]))
    rw [List.cons_append, connectLoop_step _ _ _ h, this]
    simp

/-- The error code is still set after the loop exactly when no address connects. -/
theorem connectLoop_error_iff (eps : List Endpoint) (st : ConnectState)
    (h : st.l_error = true) :
    (connectLoop eps st).l_error = true ↔ ∀ ep ∈ eps, ep.connects = false := by
  induction eps generalizing st with
  | nil => simp [connectLoop, h]
  | cons ep eps ih =>
    simp only [connectLoop, h, if_true]
    cases hep : ep.connects with
    | true =>
      rw [connectLoop_done _ _ (by simp)]
      simp [hep]
    | false =>
      rw [ih _ (by simp)]
      simp [hep]

/-- The transport raises nothing but its own error. -/
theorem read_until_error (d : List Char) (s : Socket) (e : Fault)
    (h : (read_until d s).1 = .error e) : e = .system_error := by
  unfold read_until at h
  cases ho : s.is_open with
  | false =>
    simp only [ho, Bool.false_eq_true, if_false] at h
    exact (Except.error.inj h).symm
  | true =>
    simp only [ho, if_true] at h
    cases hs : readLoop d [] s.input with
    | none =>
      simp only [hs] at h
      exact (Except.error.inj h).symm
    | some pr =>
      simp only [hs] at h
      exact absurd h (by simp)

/-- What the constructor yields once the loop ended. -/
theorem nntp_eq (eps : List Endpoint) :
    nntp eps =
      if (connectLoop eps ⟨true, ⟨false, false, [], []⟩, []⟩).l_error = true then
        (.error (.parameter "cannot connect to news server"),
          (connectLoop eps ⟨true, ⟨false, false, [], []⟩, []⟩).attempted)
      else
        ((match (read_until CRLF (connectLoop eps ⟨true, ⟨false, false, [], []⟩, []⟩).socket).1,
            (read_until CRLF (connectLoop eps ⟨true, ⟨false, false, [], []⟩, []⟩).socket).2 with
          | .error e, _ => .error e
          | .ok _, s1 => .ok s1),
          (connectLoop eps ⟨true, ⟨false, false, [], []⟩, []⟩).attempted) := by
  unfold nntp
  simp only []
  split
  · rfl
  · cases read_until CRLF (connectLoop eps ⟨true, ⟨false, false, [], []⟩, []⟩).socket with
    | mk o s1 => cases o <;> rfl

/-- C16: for every ordered list of resolved addresses with a connect outcome each, the
constructor attempts the addresses in list order, stops at the first one that connects and
attempts none after it, and raises the error cannot connect to news server if and only if
every address fails, the empty list included. -/
theorem nntp_connects (eps pre post : List Endpoint) (c : Endpoint)
    (hf : ∀ ep ∈ pre, ep.connects = false) (hc : c.connects = true) :
    ((nntp eps).1 = .error (.parameter "cannot connect to news server") ↔
      ∀ ep ∈ eps, ep.connects = false) ∧
    ((∀ ep ∈ eps, ep.connects = false) → (nntp eps).2 = eps) ∧
    (nntp (pre ++ c :: post)).2 = pre ++ [c] ∧
    (nntp (pre ++ c :: post)).1 ≠ .error (.parameter "cannot connect to news server") ∧
    (nntp []).1 = .error (.parameter "cannot connect to news server") := by
  have key : ∀ l : List Endpoint,
      ((nntp l).1 = .error (.parameter "cannot connect to news server") ↔
        ∀ ep ∈ l, ep.connects = false) := by
    intro l
    have hiff := connectLoop_error_iff l ⟨true, ⟨false, false, [], []⟩, []⟩ rfl
    rw [nntp_eq, ← hiff]
    split
    · rename_i hl
      simp [hl]
    · rename_i hl
      constructor
      · intro hx
        have hru := read_until_error CRLF
          (connectLoop l ⟨true, ⟨false, false, [], []⟩, []⟩).socket
        generalize read_until CRLF (connectLoop l ⟨true, ⟨false, false, [], []⟩, []⟩).socket = r
          at hx hru
        obtain ⟨o, s1⟩ := r
        cases o with
        | error e =>
          have h1 := hru e rfl
          subst h1
          simp at hx
        | ok v => simp at hx
      · intro hx
        exact absurd hx hl
  refine ⟨key eps, ?_, ?_, ?_, ?_⟩
  · intro hall
    have := connectLoop_all_fail eps ⟨true, ⟨false, false, [], []⟩, []⟩ rfl hall
    rw [nntp_eq]
    simp [this.1, this.2]
  · have := connectLoop_first pre c post ⟨true, ⟨false, false, [], []⟩, []⟩ rfl hf hc
    rw [nntp_eq, this]
    simp
  · intro hx
    have := (key (pre ++ c :: post)).mp hx c (by simp)
    rw [hc] at this
    exact absurd this (by simp)
  · rfl

/-- C16, instance: of three addresses the first fails and the second connects; the third is
never tried and the session is established. -/
theorem nntp_connects_witness :
    (∀ ep ∈ [(⟨false, []⟩ : Endpoint)], ep.connects = false) ∧
    (⟨true, ["200 welcome\r\n".toList]⟩ : Endpoint).connects = true ∧
    (nntp ([⟨false, []⟩] ++ ⟨true, ["200 welcome\r\n".toList]⟩ :: [⟨true, []⟩])).2
      = [⟨false, []⟩] ++ [⟨true, ["200 welcome\r\n".toList]⟩] ∧
    (nntp ([⟨false, []⟩] ++ ⟨true, ["200 welcome\r\n".toList]⟩ :: [⟨true, []⟩])).1
      = .ok ⟨true, true, [], []⟩ :=
  ⟨by decide, rfl,
   (nntp_connects [] [⟨false, []⟩] [⟨true, []⟩] ⟨true, ["200 welcome\r\n".toList]⟩
      (by decide) rfl).2.2.1,
   by decide⟩

/-- C17 (code at the failing inputs): when the server answers quit with the error code 500, or
when the write of quit fails because the peer is gone, the exception leaves the destructor and
its `m_socket.close()` is not reached; only after a reply that raises nothing does the
destructor close the socket. In each case quit is the last command written, if any. -/
theorem destructor_error_escapes :
    nntp_destructor ⟨true, true, ["500 command not recognized\r\n".toList], []⟩
      = (.error (.parameter "command not recognized"),
          ⟨true, true, [], ["quit\r\n".toList]⟩) ∧
    nntp_destructor ⟨true, false, [], []⟩ = (.error .system_error, ⟨true, false, [], []⟩) ∧
    nntp_destructor ⟨true, true, ["205 closing connection\r\n".toList], []⟩
      = (.ok (), ⟨false, true, [], ["quit\r\n".toList]⟩) := by
  decide

/-- C19 (as stated, refuted): in a listing whose first line separates name and count by two
blanks and whose second line separates them by a tab, `getGroupList` maps the first name to 0
instead of its count 5, and takes the second name together with the tab and the count as the
key. -/
theorem getGroupList_blank_runs :
    (getGroupList ⟨true, true,
      ["215 list follows\r\n".toList,
        "header\r\nalt.test  5 1 y\r\nmisc.test\t7 1 y\r\ntrailer\r\nend\r\n.\r\n".toList],
      []⟩).1
      = .ok [("alt.test".toList, 0), ("misc.test\t7".toList, 1)] ∧
    split ' ' "alt.test  5 1 y\r".toList
      = ["alt.test".toList, [], "5".toList, "1".toList, "y\r".toList] ∧
    split ' ' "misc.test\t7 1 y\r".toList
      = ["misc.test\t7".toList, "1".toList, "y\r".toList] := by
  decide

/-- C19 (amended): every line kept by `getGroupList` is split at each single blank, empty
segments kept and no other character separating; the line contributes an entry if and only if
it holds a blank, and the entry maps the text before the first blank to the number cast from
the text between the first blank and the next one (or the end of the line), or to 0 when that
cast fails. -/
theorem groupsLoop_line (line : List Char) (l_list : List (List Char)) (m : GroupMap) :
    (' ' ∉ line → groupsLoop (line :: l_list) m = groupsLoop l_list m) ∧
    (∀ name count, ' ' ∉ name → ' ' ∉ count →
      (line = name ++ ' ' :: count ∨ ∃ more, line = name ++ ' ' :: (count ++ ' ' :: more)) →
      groupsLoop (line :: l_list) m
        = groupsLoop l_list (mapSet m name ((lexical_cast_uint count).getD 0))) := by
  constructor
  · intro hn
    simp only [groupsLoop, split_of_not_mem ' ' line hn]
  · intro name count hname hcount hline
    rcases hline with hline | ⟨more, hline⟩
    · subst hline
      simp only [groupsLoop, split_append_sep ' ' name count hname,
        split_of_not_mem ' ' count hcount]
    · subst hline
      simp only [groupsLoop, split_append_sep ' ' name _ hname,
        split_append_sep ' ' count more hcount]

/-- C19 (amended), instance: with two blanks between name and count the text between the first
and the second blank is empty, and the name is mapped to 0. -/
theorem groupsLoop_line_witness :
    ' ' ∉ "alt.test".toList ∧ ' ' ∉ ([] : List Char) ∧
    groupsLoop ["alt.test  5 1 y\r".toList] [] = [("alt.test".toList, 0)] :=
  ⟨by decide, by decide,
   (groupsLoop_line "alt.test  5 1 y\r".toList [] []).2 "alt.test".toList [] (by decide)
      (by decide) (Or.inr ⟨"5 1 y\r".toList, rfl⟩)⟩

/-! ### The trimming step on short bodies, and the CR left on the lines -/

/-- Splitting never yields an empty vector. -/
theorem split_length_pos (sep : Char) (a : List Char) : 0 < (split sep a).length := by
  induction a with
  | nil => simp [split]
  | cons c a ih =>
    simp only [split]
    split
    · simp
    · cases h : split sep a with
      | nil => simp
      | cons seg segs => simp

/-- The second erasure leaves the vector exactly when fewer than three segments came in. -/
theorem eraseEnds_undefined_iff (l_list : List (List Char)) :
    eraseEnds l_list = .error .undefined ↔ l_list.length < 3 := by
  cases l_list with
  | nil => simp [eraseEnds]
  | cons h t =>
    simp only [eraseEnds, List.length_cons]
    split
    · rename_i hlt
      simp only [true_iff]
      omega
    · rename_i hge
      constructor
      · intro hx
        exact absurd hx (by simp)
      · intro hx
        omega

/-- With three segments or more the trimming keeps all but three of them. -/
theorem eraseEnds_ok_length (l_list r : List (List Char)) (h : eraseEnds l_list = .ok r) :
    3 ≤ l_list.length ∧ r.length = l_list.length - 3 := by
  cases l_list with
  | nil => simp [eraseEnds] at h
  | cons x t =>
    simp only [eraseEnds] at h
    split at h
    · exact absurd h (by simp)
    · rename_i hge
      have hr : r = t.take (t.length - 2) := (Except.ok.inj h).symm
      subst hr
      simp only [List.length_cons, List.length_take]
      omega

/-- C21 (code at the failing inputs): a listing body of one line splits into one segment and a
body of two lines into two; after the first segment is erased the second erasure addresses
positions before the start of the vector, which is undefined behaviour, both in `getGroupList`
and in `getArticleIDs`. For an empty listing the closing delimiter never arrives after the
status line and the read fails before any trimming. -/
theorem trimming_leaves_vector :
    (split '\n' "alt.test 5 1 y".toList).length = 1 ∧
    eraseEnds (split '\n' "alt.test 5 1 y".toList) = .error .undefined ∧
    (getGroupList
      ⟨true, true, ["215 list follows\r\n".toList, "alt.test 5 1 y\r\n.\r\n".toList], []⟩).1
      = .error .undefined ∧
    (split '\n' "7\r\n8".toList).length = 2 ∧
    eraseEnds (split '\n' "7\r\n8".toList) = .error .undefined ∧
    (getArticleIDs "misc.test".toList
      ⟨true, true, ["211 2 7 8 misc.test list follows\r\n".toList, "7\r\n8\r\n.\r\n".toList], []⟩).1
      = .error .undefined ∧
    (getGroupList ⟨true, true, ["215 list follows\r\n".toList, ".\r\n".toList], []⟩).1
      = .error .system_error := by
  decide

/-- Every identifier `getArticleIDs` returns from a CR LF separated listing is a line of the
listing followed by the CR that stood before its LF. -/
theorem getArticleIDs_keep_cr (p_group : List Char) (s : Socket) (st hdr t1 t2 : List Char)
    (chunks rest : List (List Char)) (ids : List (List Char))
    (hA : Answers s st (chunks ++ rest)) (hst : isSuccess (statusOf (st ++ CRLF)))
    (hl : ∀ l ∈ (hdr :: (ids ++ [t1])) ++ [t2], '\n' ∉ l ∧ l ≠ ['.'])
    (hc : ∀ c ∈ chunks, c ≠ [])
    (hj : chunks.flatten = crlfLines (hdr :: (ids ++ [t1])) ++ t2 ++ DOTCRLF) :
    (getArticleIDs p_group s).1 = .ok (ids.map (· ++ ['\r'])) := by
  rw [getArticleIDs, send_passes _ s st _ hA (isSuccess_not_error hst)]
  simp only []
  rw [getResponseData_of_lines
    ({ s with
        input := chunks ++ rest,
        output := s.output ++ ["listgroup ".toList ++ p_group ++ CRLF] } : Socket)
    (hdr :: (ids ++ [t1])) t2 chunks rest hA.1
    (fun l h => (hl l h).1) (fun l h => (hl l h).2) hc hj rfl]
  simp only []
  rw [split_crlfLines _ _ (fun l h => (hl l h).1)]
  have hshape : (hdr :: (ids ++ [t1])).map (· ++ ['\r']) ++ [t2]
      = (hdr ++ ['\r']) :: (ids.map (· ++ ['\r']) ++ [t1 ++ ['\r'], t2]) := by
    simp
  rw [hshape, eraseEnds_frame]

/-- C22 (code at the failing input): from a listing of four article numbers, each line ended by
CR LF, `getArticleIDs` returns the identifier 8 followed by a CR; handed to
`getArticle(group, articleId)` or `existArticle(group, articleId)` it puts the CR in front of
the terminating CR LF of the command. -/
theorem identifiers_carry_cr :
    (getArticleIDs "misc.test".toList
      ⟨true, true,
        ["211 4 7 10 misc.test list follows\r\n".toList, "7\r\n8\r\n9\r\n10\r\n.\r\n".toList], []⟩).1
      = .ok ["8\r".toList] ∧
    '\r' ∈ "8\r".toList ∧
    (getArticleIn "misc.test".toList "8\r".toList .body
      ⟨true, true,
        ["211 4 7 10 misc.test\r\n".toList, "222 8 <b@example> body\r\n".toList,
          "text\r\n.\r\n".toList], []⟩).2.output
      = ["group misc.test\r\n".toList, "body 8\r\r\n".toList] ∧
    (existArticleIn "misc.test".toList "8\r".toList
      ⟨true, true, ["211 4 7 10 misc.test\r\n".toList, "223 8 <b@example>\r\n".toList], []⟩).2.output
      = ["group misc.test\r\n".toList, "stat 8\r\r\n".toList] := by
  decide

end NNTP
